import Mathlib

/-!
Verification of the TrendRadar report aggregation core, a shallow embedding
of trendradar/report/hot_events.py and trendradar/report/douyin_focus.py.

Modelling conventions
- Python dicts are ordered association lists (insertion order preserved).
- Python ints are Int. A rank value as found in upstream data is an
  Option Int: some n when int(...) succeeds, none when coercion fails or
  the field is missing, mirroring the try/except skip policy of the source.
- A metadata dict that may be absent or None is an Option TitleMeta.
- Code paths of the source that can raise are additionally modelled in the
  Except monad (definitions suffixed with E); the pure definitions give the
  value semantics and theorems relate the two.
- Unicode titles are Lean String values. The whitespace class of the
  regex in hot_events.py line 17 and of str.strip is modelled by pyIsWs;
  str.lower is modelled for the ASCII letters (asciiLower), which covers
  every input exercised by the claims.
-/

namespace TrendRadar

/-- Whitespace test for the regex character class of hot_events.py line 17
and for str.strip: ASCII whitespace together with the Unicode space code
points Python recognises. -/
def pyIsWs (c : Char) : Bool :=
  c == ' ' || c == '\t' || c == '\n' || c == '\r' || c == '\x0b' || c == '\x0c' ||
  c == '\x85' || c == '\xa0' || c == ' ' || c == ' ' || c == ' ' || c == ' ' || c == ' ' ||
  c == ' ' || c == ' ' || c == ' ' || c == ' ' || c == ' ' || c == ' ' || c == ' ' ||
  c == ' ' || c == ' ' || c == ' ' || c == ' ' || c == '　'

/-- The fixed punctuation set of hot_events.py line 18: full-width and
half-width separators, quotes, brackets, dashes. -/
def punctChars : List Char :=
  ['，', '。', '！', '？', '、', '：', '；', '“', '”', '‘', '’', '（', '）',
   '(', ')', '【', '】', '《', '》', '<', '>', '「', '」', '『', '』', '·',
   '…', '—', '-']

/-- Membership in the punctuation set stripped by the normalizer. -/
def pyIsPunct (c : Char) : Bool := punctChars.contains c

/-- ASCII lower casing, modelling str.lower on the inputs of interest. -/
def asciiLower (c : Char) : Char :=
  match c with
  | 'A' => 'a' | 'B' => 'b' | 'C' => 'c' | 'D' => 'd' | 'E' => 'e'
  | 'F' => 'f' | 'G' => 'g' | 'H' => 'h' | 'I' => 'i' | 'J' => 'j'
  | 'K' => 'k' | 'L' => 'l' | 'M' => 'm' | 'N' => 'n' | 'O' => 'o'
  | 'P' => 'p' | 'Q' => 'q' | 'R' => 'r' | 'S' => 's' | 'T' => 't'
  | 'U' => 'u' | 'V' => 'v' | 'W' => 'w' | 'X' => 'x' | 'Y' => 'y'
  | 'Z' => 'z'
  | other => other

/-- Drop leading whitespace, one half of str.strip. -/
def dropLeadWs (l : List Char) : List Char := l.dropWhile pyIsWs

/-- Model of str.strip: remove trailing whitespace (via the reversal) and
then leading whitespace. -/
def pyStrip (l : List Char) : List Char := dropLeadWs (dropLeadWs l.reverse).reverse

/-- Engine of the whitespace collapse regex substitution: the flag records
whether the previous character belonged to a whitespace run, in which case
further whitespace of the same run is dropped; the first character of each
run is replaced by a single space. -/
def collapseAux : List Char → Bool → List Char
  | [], _ => []
  | c :: rest, prevWs =>
    cond (pyIsWs c)
      (cond prevWs (collapseAux rest true) (' ' :: collapseAux rest true))
      (c :: collapseAux rest false)

/-- Model of the substitution _SPACE_RE.sub applied in _normalize_title:
every maximal whitespace run becomes one single space. -/
def collapseWs (l : List Char) : List Char := collapseAux l false

/-- Model of the substitution _PUNCT_RE.sub: delete every character of the
punctuation set. -/
def punctStrip (l : List Char) : List Char := l.filter (fun c => !pyIsPunct c)

/-- Modelled from the spec: the external title-cleaning collaborator
clean_title (imported from trendradar.report.helpers, which is not among
the analysed sources). The spec treats it as a generic out-of-scope
cleaning step supplied by an external text-cleaning collaborator, so it is
modelled as the identity function. -/
def clean_title (s : String) : String := s

/-- Shallow embedding of _normalize_title (hot_events.py lines 21 to 27):
clean, strip, lower, collapse whitespace runs, delete punctuation. -/
def _normalize_title (s : String) : String :=
  String.mk (punctStrip (collapseWs ((pyStrip (clean_title s).data).map asciiLower)))

/-- Canonicity check mirroring collapseAux: all whitespace characters are
single plain spaces and no two are adjacent (relative to the incoming run
flag). -/
def wsCanonAux : List Char → Bool → Bool
  | [], _ => true
  | c :: rest, prevWs =>
    cond (pyIsWs c)
      (cond prevWs false ((c == ' ') && wsCanonAux rest true))
      (wsCanonAux rest false)

/-- Edge test: the first and the last character, when they exist, are not
whitespace. -/
def noEdgeWs (l : List Char) : Bool :=
  (match l.head? with
   | some c => !pyIsWs c
   | none => true) &&
  (match l.getLast? with
   | some c => !pyIsWs c
   | none => true)

/-- A character list is canonical for the normalizer when it has no
punctuation, is stable under lower casing, has no edge whitespace and its
whitespace is collapsed. On such lists the normalizer acts as the
identity. -/
def normCanon (l : List Char) : Bool :=
  l.all (fun c => !pyIsPunct c) && l.all (fun c => asciiLower c == c) &&
  noEdgeWs l && wsCanonAux l false

/-- Concrete input refuting claim C1 as stated: the letter a, a space and a
half-width dash. -/
def c1badInput : String := "a -"

/-! ## Data model of snapshots -/

/-- Metadata dict attached to one title of one platform. Any field may be
absent (none). An entry of rank_timeline stands for one timeline point and
holds the parse result of its rank field: some n when int coercion
succeeds, none when the field is missing or coercion fails; an entry of
the legacy ranks list likewise holds the parse result of one raw rank
value. -/
structure TitleMeta where
  last_time : Option String
  rank_timeline : Option (List (Option Int))
  ranks : Option (List (Option Int))
  url : Option String
  mobileUrl : Option String
  mobile_url : Option String
deriving DecidableEq

/-- The empty dict substituted by the guards of the source. -/
def emptyMeta : TitleMeta := ⟨none, none, none, none, none, none⟩

/-- Titles dict of one platform: title text to possibly null metadata, in
insertion order. -/
abbrev Titles := List (String × Option TitleMeta)

/-- The snapshot structure title_info: platform id to possibly null titles
dict, in insertion order. -/
abbrev TitleInfo := List (String × Option Titles)

/-- Dict lookup with default, modelling dict.get(key, default) for string
values. -/
def lookupD (l : List (String × String)) (k d : String) : String :=
  (List.lookup k l).getD d

/-- The guarded expression title_info.get(platform_id, {}) or {} of
douyin_focus.py lines 15 and 110. -/
def platTitles (title_info : TitleInfo) (platform_id : String) : Titles :=
  match List.lookup platform_id title_info with
  | some (some ts) => ts
  | _ => []

/-! ## RankSeries extraction and rising metrics (douyin_focus.py) -/

/-- Parsed integer points of the rank_timeline field; entries whose rank is
missing or fails coercion are skipped (douyin_focus.py lines 24 to 31). -/
def parsedTimeline (m : TitleMeta) : List Int :=
  (m.rank_timeline.getD []).filterMap id

/-- Parsed integer points of the legacy ranks field under the same skip
rule (lines 32 to 38). -/
def parsedLegacyRanks (m : TitleMeta) : List Int :=
  (m.ranks.getD []).filterMap id

/-- Shallow embedding of _extract_rank_points (douyin_focus.py lines 22 to
39): prefer the timeline points and fall back to the legacy ranks when no
timeline point parses. -/
def _extract_rank_points (m : TitleMeta) : List Int :=
  if parsedTimeline m = [] then parsedLegacyRanks m else parsedTimeline m

/-- Python slice points[-k:] for an integer k: the tail of length k when k
is positive (everything when k exceeds the length), everything when k is
zero, a drop from the front when k is negative. -/
def pyLastSlice (l : List Int) (k : Int) : List Int :=
  if 0 < k then l.drop (l.length - k.toNat)
  else if k = 0 then l
  else l.drop (-k).toNat

/-- Separator of the trend rendering. -/
def trendArrow : String := "→"

/-- Shallow embedding of _format_trend (douyin_focus.py lines 42 to 46). -/
def _format_trend (points : List Int) (max_points : Int) : String :=
  if points = [] then ""
  else String.intercalate trendArrow ((pyLastSlice points max_points).map toString)

/-- Result record of _calc_rising_metrics. -/
structure RisingMetrics where
  total_improve : Int
  improve_steps : Nat
  window_used : Nat
deriving DecidableEq

/-- Window selection of _calc_rising_metrics line 56: the last
window_points points when positive, all points otherwise. -/
def windowOf (points : List Int) (window_points : Int) : List Int :=
  if 0 < window_points then pyLastSlice points window_points else points

/-- Count of adjacent pairs whose later point is strictly below the
earlier one, the loop of _calc_rising_metrics lines 61 to 64. -/
def improveSteps : List Int → Nat
  | a :: b :: rest => (if b < a then 1 else 0) + improveSteps (b :: rest)
  | _ => 0

/-- Shallow embedding of _calc_rising_metrics (douyin_focus.py lines 49 to
70); windowOf names the window local of the source. -/
def _calc_rising_metrics (points : List Int) (window_points : Int) : RisingMetrics :=
  if points = [] then ⟨0, 0, 0⟩
  else if (windowOf points window_points).length < 2 then
    ⟨0, 0, (windowOf points window_points).length⟩
  else
    ⟨(windowOf points window_points).headD 0 - (windowOf points window_points).getLastD 0,
     improveSteps (windowOf points window_points),
     (windowOf points window_points).length⟩

/-! ## FocusListBuilder (douyin_focus.py) -/

/-- One analytical item of the hot and rising lists. -/
structure FocusItem where
  title : String
  url : String
  mobile_url : String
  rank : Int
  delta : Int
  trend : String
  total_improve : Int
  improve_steps : Nat
  window_used : Nat
deriving DecidableEq

/-- Result record of build_douyin_focus; the empty-dict early returns of
the source are modelled as the value none of Option FocusResult. -/
structure FocusResult where
  platform_id : String
  platform_name : String
  hot : List FocusItem
  rising : List FocusItem
deriving DecidableEq

/-- Carrier of the keyword group configuration, abstract to the builder
and only handed to the injected matcher. -/
abbrev WordGroups := List (List String)

/-- Type of the injected keyword predicate matches_word_groups_func. -/
abbrev MatchFn := String → WordGroups → List String → List String → Bool

/-- Type of the injected loader load_frequency_words_func: word groups
(possibly null), filter words, global filters. -/
abbrev LoadFn := Unit → Option WordGroups × List String × List String

/-- Python substring containment: the needle occurs inside the haystack. -/
def strContains (hay needle : String) : Bool :=
  (List.range (hay.data.length + 1)).any fun i => needle.data.isPrefixOf (hay.data.drop i)

/-- Configuration assembled by build_douyin_focus before the collection
pass: the injected capabilities, loaded keyword data and the numeric
thresholds. -/
structure DouyinCfg where
  matchesFn : Option MatchFn
  word_groups : Option WordGroups
  filter_words : List String
  global_filters : List String
  extra_keywords : List String
  must_keywords : List String
  min_rank_improve : Int
  min_total_improve : Int
  min_consecutive_improve : Int
  max_rank : Int
  trend_points : Int
  rising_window_points : Int

/-- Keyword cleaning of douyin_focus.py lines 103 and 104: keep keywords
whose stripped text is non-empty. -/
def keywordClean (ks : Option (List String)) : List String :=
  (ks.getD []).filter fun k => pyStrip k.data ≠ []

/-- Configuration loading of build_douyin_focus lines 100 to 104: the
loader runs only when both capabilities are supplied. -/
def mkDouyinCfg (matchesFn : Option MatchFn) (loadFn : Option LoadFn)
    (extra_keywords must_keywords : Option (List String))
    (min_rank_improve min_total_improve min_consecutive_improve max_rank
      trend_points rising_window_points : Int) : DouyinCfg :=
  let loaded :=
    match matchesFn, loadFn with
    | some _, some f => f ()
    | _, _ => (none, [], [])
  { matchesFn := matchesFn, word_groups := loaded.1, filter_words := loaded.2.1,
    global_filters := loaded.2.2, extra_keywords := keywordClean extra_keywords,
    must_keywords := keywordClean must_keywords,
    min_rank_improve := min_rank_improve, min_total_improve := min_total_improve,
    min_consecutive_improve := min_consecutive_improve, max_rank := max_rank,
    trend_points := trend_points, rising_window_points := rising_window_points }

/-- The fallback chain meta.get(mobileUrl) or meta.get(mobile_url) or the
empty string (douyin_focus.py line 147, hot_events.py line 87). -/
def pyMobile (m : TitleMeta) : String :=
  if m.mobileUrl.getD "" ≠ "" then m.mobileUrl.getD "" else m.mobile_url.getD ""

/-- Rejection test of the keyword pass, douyin_focus.py lines 124 to 130:
when keyword matching is required and a matcher with loaded word groups is
available, a title failing the predicate is dropped unless it contains one
of the extra keywords. -/
def keywordReject (cfg : DouyinCfg) (require_keyword_match : Bool) (title : String) : Bool :=
  match require_keyword_match, cfg.matchesFn, cfg.word_groups with
  | true, some f, some wg =>
    if f title wg cfg.filter_words cfg.global_filters then false
    else if cfg.extra_keywords ≠ [] then
      !(cfg.extra_keywords.any fun k => strContains title k)
    else true
  | _, _, _ => false

/-- One iteration of the collection loop of build_douyin_focus (lines 110
to 164): the filters in source order, then rank point extraction, rank
bounds, delta and rising metrics; a qualifying item is appended to the hot
accumulator and, when the rising test fires, to the rising accumulator. -/
def collectStep (cfg : DouyinCfg) (latest : String)
    (require_keyword_match require_latest_only : Bool)
    (acc : List FocusItem × List FocusItem) (tm : String × Option TitleMeta) :
    List FocusItem × List FocusItem :=
  let title := tm.1
  let meta := tm.2.getD emptyMeta
  if require_latest_only = true ∧ meta.last_time ≠ some latest then acc
  else if cfg.global_filters ≠ [] ∧
      cfg.global_filters.any (fun f => strContains title f) = true then acc
  else if cfg.must_keywords ≠ [] ∧
      cfg.must_keywords.any (fun k => strContains title k) = false then acc
  else if keywordReject cfg require_keyword_match title = true then acc
  else if _extract_rank_points meta = [] then acc
  else
    let points := _extract_rank_points meta
    let current_rank := points.getLastD 0
    if current_rank ≤ 0 ∨ cfg.max_rank < current_rank then acc
    else
      let delta :=
        if 2 ≤ points.length then points.getD (points.length - 2) 0 - current_rank else 0
      let rm := _calc_rising_metrics points cfg.rising_window_points
      let item : FocusItem :=
        { title := title, url := meta.url.getD "", mobile_url := pyMobile meta,
          rank := current_rank, delta := delta,
          trend := _format_trend points cfg.trend_points,
          total_improve := rm.total_improve, improve_steps := rm.improve_steps,
          window_used := rm.window_used }
      (acc.1 ++ [item],
       if cfg.min_rank_improve ≤ delta ∨
          (cfg.min_total_improve ≤ rm.total_improve ∧
            cfg.min_consecutive_improve ≤ (rm.improve_steps : Int)) then
         acc.2 ++ [item]
       else acc.2)

/-- The collection pass collect_items of build_douyin_focus (lines 106 to
166) over the titles dict of the platform. -/
def collect_items (title_info : TitleInfo) (platform_id : String) (cfg : DouyinCfg)
    (latest : String) (require_keyword_match require_latest_only : Bool) :
    List FocusItem × List FocusItem :=
  (platTitles title_info platform_id).foldl
    (collectStep cfg latest require_keyword_match require_latest_only) ([], [])

/-- Ordering of the hot list sort (douyin_focus.py line 173): ascending
rank. -/
def hotLe (a b : FocusItem) : Prop := a.rank ≤ b.rank

instance : DecidableRel hotLe := fun a b => Int.decLe a.rank b.rank

instance : IsTotal FocusItem hotLe := ⟨fun a b => Int.le_total a.rank b.rank⟩

instance : IsTrans FocusItem hotLe := ⟨fun _ _ _ h1 h2 => le_trans h1 h2⟩

/-- Ordering of the rising list sort (douyin_focus.py line 174):
descending delta, ties broken by ascending rank. -/
def risingLe (a b : FocusItem) : Prop :=
  b.delta < a.delta ∨ (a.delta = b.delta ∧ a.rank ≤ b.rank)

instance : DecidableRel risingLe := fun _ _ => inferInstanceAs (Decidable (_ ∨ _))

instance : IsTotal FocusItem risingLe := ⟨by
  intro a b
  rcases lt_trichotomy a.delta b.delta with h | h | h
  · exact Or.inr (Or.inl h)
  · rcases le_total a.rank b.rank with hr | hr
    · exact Or.inl (Or.inr ⟨h, hr⟩)
    · exact Or.inr (Or.inr ⟨h.symm, hr⟩)
  · exact Or.inl (Or.inl h)⟩

instance : IsTrans FocusItem risingLe := ⟨by
  intro a b c hab hbc
  rcases hab with h1 | ⟨e1, r1⟩ <;> rcases hbc with h2 | ⟨e2, r2⟩
  · exact Or.inl (by omega)
  · exact Or.inl (by omega)
  · exact Or.inl (by omega)
  · exact Or.inr ⟨by omega, by omega⟩⟩

/-- Pass selection of build_douyin_focus lines 168 to 171: the strict pass
with both toggles on, then the relaxed pass when nothing was collected and
the fallback flag is set. -/
def douyinSelected (title_info : TitleInfo) (platform_id : String) (cfg : DouyinCfg)
    (latest : String) (allow_unfiltered_hot : Bool) :
    List FocusItem × List FocusItem :=
  if allow_unfiltered_hot = true ∧
      (collect_items title_info platform_id cfg latest true true).1 = [] then
    collect_items title_info platform_id cfg latest false false
  else collect_items title_info platform_id cfg latest true true

/-- Sorting and truncation of build_douyin_focus lines 173 to 181; a
non-positive maximum takes the full list length. -/
def douyinAssemble (title_info : TitleInfo) (id_to_name : List (String × String))
    (platform_id : String) (cfg : DouyinCfg) (latest : String)
    (allow_unfiltered_hot : Bool) (max_hot_items max_rising_items : Int) : FocusResult :=
  let sel := douyinSelected title_info platform_id cfg latest allow_unfiltered_hot
  let hotS := List.insertionSort hotLe sel.1
  let risS := List.insertionSort risingLe sel.2
  { platform_id := platform_id,
    platform_name := lookupD id_to_name platform_id platform_id,
    hot := hotS.take (if 0 < max_hot_items then max_hot_items.toNat else hotS.length),
    rising := risS.take (if 0 < max_rising_items then max_rising_items.toNat else risS.length) }

deriving instance DecidableEq for Except

/-- Message of the exception raised by attribute access on None. -/
def attributeError : String := "AttributeError"

/-- Attribute access meta.get on a possibly null dict: a None value
raises AttributeError. -/
def pyMetaGet (m : Option TitleMeta) : Except String TitleMeta :=
  match m with
  | some meta => Except.ok meta
  | none => Except.error attributeError

/-- Python string comparison: lexicographic on code points, a strict
prefix comparing smaller. -/
def charListLt : List Char → List Char → Bool
  | [], [] => false
  | [], _ :: _ => true
  | _ :: _, [] => false
  | a :: as, b :: bs =>
    if Nat.blt a.toNat b.toNat then true
    else if Nat.blt b.toNat a.toNat then false
    else charListLt as bs

/-- Python comparison a < b on strings. -/
def pyStrLt (a b : String) : Bool := charListLt a.data b.data

/-- One update of the latest-time maximum, the conditional of
douyin_focus.py lines 16 to 18 and hot_events.py lines 56 to 58: a
non-empty time replaces the current maximum when there is none yet or it
compares later. -/
def latestStep (acc : Option String) (lt : String) : Option String :=
  match acc with
  | none => if lt ≠ "" then some lt else none
  | some p => if lt ≠ "" ∧ pyStrLt p lt = true then some lt else some p

/-- Exception-explicit embedding of _get_latest_time (douyin_focus.py
lines 13 to 19). The meta dict is read without a null guard there, unlike
every other meta access of the two modules, so a null meta raises. -/
def _get_latest_timeE (title_info : TitleInfo) (platform_id : String) :
    Except String (Option String) :=
  (platTitles title_info platform_id).foldlM
    (fun acc tm => do
      let meta ← pyMetaGet tm.2
      pure (latestStep acc (meta.last_time.getD "")))
    none

/-- Exception-explicit embedding of build_douyin_focus (douyin_focus.py
lines 73 to 181); the empty-dict early returns are the ok none values. -/
def build_douyin_focusE (title_info : TitleInfo) (id_to_name : List (String × String))
    (matchesFn : Option MatchFn) (loadFn : Option LoadFn)
    (extra_keywords must_keywords : Option (List String))
    (allow_unfiltered_hot : Bool)
    (max_hot_items max_rising_items min_rank_improve min_total_improve
      min_consecutive_improve max_rank trend_points rising_window_points : Int)
    (platform_id : String) : Except String (Option FocusResult) :=
  if title_info = [] ∨ List.lookup platform_id title_info = none then Except.ok none
  else do
    let latest? ← _get_latest_timeE title_info platform_id
    match latest? with
    | none => pure none
    | some latest =>
      pure (some (douyinAssemble title_info id_to_name platform_id
        (mkDouyinCfg matchesFn loadFn extra_keywords must_keywords min_rank_improve
          min_total_improve min_consecutive_improve max_rank trend_points
          rising_window_points)
        latest allow_unfiltered_hot max_hot_items max_rising_items))

/-- Platform id constant of the focus builder examples. -/
def douyinId : String := "douyin"

/-- Meta of the steady title of the truncation counterexample: a single
rank one observation at the latest time. -/
def c2metaA : TitleMeta := ⟨some "t", none, some [some 1], none, none, none⟩

/-- Meta of the climbing title of the truncation counterexample: rank
observations fifty then ten at the latest time. -/
def c2metaB : TitleMeta := ⟨some "t", none, some [some 50, some 10], none, none, none⟩

/-- Snapshot of the truncation counterexample. -/
def c2info : TitleInfo := [(douyinId, some [("a", some c2metaA), ("b", some c2metaB)])]

/-- Focus item produced for the steady title. -/
def c2itemA : FocusItem := ⟨"a", "", "", 1, 0, "1", 0, 0, 1⟩

/-- Focus item produced for the climbing title. -/
def c2itemB : FocusItem := ⟨"b", "", "", 10, 40, "50→10", 40, 1, 2⟩

/-- Focus result of the truncation counterexample with max_hot_items one. -/
def c2result : FocusResult := ⟨douyinId, douyinId, [c2itemA], [c2itemB]⟩

/-- Focus result of the same snapshot with non-positive max_hot_items. -/
def c2resultFull : FocusResult := ⟨douyinId, douyinId, [c2itemA, c2itemB], [c2itemB]⟩

/-! ## HotEventAggregator (hot_events.py) -/

/-- View of one qualifying sighting of the aggregation loop of
build_hot_events: resolved platform name, raw title, parsed current rank
and links. -/
structure Sighting where
  pname : String
  title : String
  rank : Option Int
  url : String
  mobile : String
deriving DecidableEq

/-- Group record of the aggregation, the value dict of groups. -/
structure EventGroup where
  title : String
  platforms : List String
  platform_count : Nat
  best_rank : Int
  url : String
  mobile_url : String
deriving DecidableEq

/-- Output record of build_hot_events. -/
structure HotEvent where
  title : String
  platforms : List String
  platform_count : Nat
  best_rank : Int
  url : String
  mobile_url : String
  ranks : List Int
deriving DecidableEq

/-- Current rank determination of build_hot_events lines 77 to 84: the
last element of the legacy ranks list when present and parseable,
otherwise none; the rank_timeline field is never consulted. -/
def hotCurrentRank (m : TitleMeta) : Option Int :=
  if m.ranks.getD [] = [] then none else (m.ranks.getD []).getLastD none

/-- Flattening of the two nested loops of build_hot_events into the list
of (platform, title, meta) entries in iteration order; the getD models
the titles or {} guard of lines 55 and 66. -/
def flatEntries : TitleInfo → List (String × String × Option TitleMeta)
  | [] => []
  | pt :: rest => ((pt.2.getD []).map fun tm => (pt.1, tm.1, tm.2)) ++ flatEntries rest

/-- Latest batch time across the whole snapshot (hot_events.py lines 52
to 58); every meta access there carries the meta or {} guard. -/
def hotLatest (title_info : TitleInfo) : Option String :=
  (flatEntries title_info).foldl
    (fun acc e => latestStep acc ((e.2.2.getD emptyMeta).last_time.getD "")) none

/-- The admission checks of the aggregation loop body (lines 68 to 87):
the sighting must carry the latest time and a non-empty normalized key;
it is returned together with its key. -/
def sightingOf (id_to_name : List (String × String)) (latest : String)
    (pid : String) (tm : String × Option TitleMeta) : Option (String × Sighting) :=
  if (tm.2.getD emptyMeta).last_time ≠ some latest then none
  else if _normalize_title tm.1 = "" then none
  else some (_normalize_title tm.1,
    { pname := lookupD id_to_name pid pid, title := tm.1,
      rank := hotCurrentRank (tm.2.getD emptyMeta),
      url := (tm.2.getD emptyMeta).url.getD "",
      mobile := pyMobile (tm.2.getD emptyMeta) })

/-- Seed group of a first sighting (lines 91 to 98). -/
def seedGroup (s : Sighting) : EventGroup :=
  { title := s.title, platforms := [s.pname], platform_count := 1,
    best_rank := (s.rank).getD 9999, url := s.url, mobile_url := s.mobile }

/-- Merge of a later sighting into an existing group (lines 100 to 111):
keep the longer raw title, append an unseen platform name with its count,
lower the best rank on a smaller parsed rank, fill empty links. -/
def mergeSight (s : Sighting) (g : EventGroup) : EventGroup :=
  { title := if g.title.length < s.title.length then s.title else g.title,
    platforms := if s.pname ∈ g.platforms then g.platforms else g.platforms ++ [s.pname],
    platform_count :=
      if s.pname ∈ g.platforms then g.platform_count else g.platform_count + 1,
    best_rank :=
      match s.rank with
      | some r => if r < g.best_rank then r else g.best_rank
      | none => g.best_rank,
    url := if g.url = "" ∧ s.url ≠ "" then s.url else g.url,
    mobile_url := if g.mobile_url = "" ∧ s.mobile ≠ "" then s.mobile else g.mobile_url }

/-- Update of the first entry carrying the given key. -/
def alistModify (k : String) (f : EventGroup → EventGroup) :
    List (String × EventGroup) → List (String × EventGroup)
  | [] => []
  | (k2, g) :: rest =>
    if k2 = k then (k2, f g) :: rest else (k2, g) :: alistModify k f rest

/-- Insertion of one keyed sighting into the groups dict (lines 89 to
111): seed on first sight, merge otherwise. -/
def addSighting (gs : List (String × EventGroup)) (k : String) (s : Sighting) :
    List (String × EventGroup) :=
  match List.lookup k gs with
  | none => gs ++ [(k, seedGroup s)]
  | some _ => alistModify k (mergeSight s) gs

/-- One iteration of the aggregation loop of build_hot_events over a
flattened entry. -/
def hotStep (id_to_name : List (String × String)) (latest : String)
    (gs : List (String × EventGroup)) (e : String × String × Option TitleMeta) :
    List (String × EventGroup) :=
  match sightingOf id_to_name latest e.1 (e.2.1, e.2.2) with
  | none => gs
  | some (k, s) => addSighting gs k s

/-- Groups dict after the aggregation loop of build_hot_events. -/
def hotGroups (title_info : TitleInfo) (id_to_name : List (String × String))
    (latest : String) : List (String × EventGroup) :=
  (flatEntries title_info).foldl (hotStep id_to_name latest) []

/-- The events list of build_hot_events line 113. -/
def hotEventsRaw (title_info : TitleInfo) (id_to_name : List (String × String))
    (latest : String) : List EventGroup :=
  (hotGroups title_info id_to_name latest).map (fun kg => kg.2)

/-- The platform count filter of build_hot_events line 118. -/
def hotFiltered (events : List EventGroup) (min_platforms : Int) : List EventGroup :=
  events.filter fun e => decide (max min_platforms 1 ≤ (e.platform_count : Int))

/-- Filter with fallback of build_hot_events lines 117 to 120. -/
def hotSelected (events : List EventGroup) (min_platforms : Int) : List EventGroup :=
  if hotFiltered events min_platforms = [] ∧ 1 < min_platforms then events
  else hotFiltered events min_platforms

/-- Ordering of the events sort (line 123): descending platform count,
then ascending best rank. -/
def eventLe (a b : EventGroup) : Prop :=
  b.platform_count < a.platform_count ∨
  (a.platform_count = b.platform_count ∧ a.best_rank ≤ b.best_rank)

instance : DecidableRel eventLe := fun _ _ => inferInstanceAs (Decidable (_ ∨ _))

instance : IsTotal EventGroup eventLe := ⟨by
  intro a b
  rcases lt_trichotomy a.platform_count b.platform_count with h | h | h
  · exact Or.inr (Or.inl h)
  · rcases le_total a.best_rank b.best_rank with hr | hr
    · exact Or.inl (Or.inr ⟨h, hr⟩)
    · exact Or.inr (Or.inr ⟨h.symm, hr⟩)
  · exact Or.inl (Or.inl h)⟩

instance : IsTrans EventGroup eventLe := ⟨by
  intro a b c hab hbc
  rcases hab with h1 | ⟨e1, r1⟩ <;> rcases hbc with h2 | ⟨e2, r2⟩
  · exact Or.inl (by omega)
  · exact Or.inl (by omega)
  · exact Or.inl (by omega)
  · exact Or.inr ⟨by omega, by omega⟩⟩

/-- Emission of one HotEvent (lines 126 to 140): the sentinel 9999 maps to
best rank zero with an empty ranks list, any other best rank is emitted
unchanged together with a singleton ranks list. -/
def emitEvent (e : EventGroup) : HotEvent :=
  { title := e.title, platforms := e.platforms, platform_count := e.platform_count,
    best_rank := if e.best_rank ≠ 9999 then e.best_rank else 0,
    url := e.url, mobile_url := e.mobile_url,
    ranks := if e.best_rank ≠ 9999 then [e.best_rank] else [] }

/-- Shallow embedding of build_hot_events (hot_events.py lines 30 to 142):
latest batch, aggregation, filter with fallback, sort, truncation with
max(max_items, 0), emission. -/
def build_hot_events (title_info : TitleInfo) (id_to_name : List (String × String))
    (max_items min_platforms : Int) : List HotEvent :=
  if title_info = [] then []
  else
    match hotLatest title_info with
    | none => []
    | some latest =>
      if hotEventsRaw title_info id_to_name latest = [] then []
      else
        ((List.insertionSort eventLe
            (hotSelected (hotEventsRaw title_info id_to_name latest) min_platforms)).take
          (max max_items 0).toNat).map emitEvent

/-- Message of the exception raised by a failing int coercion. -/
def valueError : String := "ValueError"

/-- Python int coercion of a raw value: an unparsable value raises. -/
def pyIntE (v : Option Int) : Except String Int :=
  match v with
  | some n => Except.ok n
  | none => Except.error valueError

/-- Exception-explicit current rank of build_hot_events lines 77 to 84:
the int coercion runs inside try and a failure is caught to None. -/
def hotCurrentRankE (m : TitleMeta) : Except String (Option Int) :=
  if m.ranks.getD [] = [] then Except.ok none
  else
    match pyIntE ((m.ranks.getD []).getLastD none) with
    | Except.ok n => Except.ok (some n)
    | Except.error _ => Except.ok none

/-- Exception-explicit iteration of the aggregation loop. -/
def hotStepE (id_to_name : List (String × String)) (latest : String)
    (gs : List (String × EventGroup)) (e : String × String × Option TitleMeta) :
    Except String (List (String × EventGroup)) :=
  if (e.2.2.getD emptyMeta).last_time ≠ some latest then pure gs
  else if _normalize_title e.2.1 = "" then pure gs
  else do
    let rank ← hotCurrentRankE (e.2.2.getD emptyMeta)
    pure (addSighting gs (_normalize_title e.2.1)
      { pname := lookupD id_to_name e.1 e.1, title := e.2.1, rank := rank,
        url := (e.2.2.getD emptyMeta).url.getD "",
        mobile := pyMobile (e.2.2.getD emptyMeta) })

/-- Exception-explicit embedding of build_hot_events. -/
def build_hot_eventsE (title_info : TitleInfo) (id_to_name : List (String × String))
    (max_items min_platforms : Int) : Except String (List HotEvent) :=
  if title_info = [] then Except.ok []
  else
    match hotLatest title_info with
    | none => Except.ok []
    | some latest => do
      let gs ← (flatEntries title_info).foldlM (hotStepE id_to_name latest) []
      if gs.map (fun kg => kg.2) = [] then pure []
      else
        pure (((List.insertionSort eventLe
            (hotSelected (gs.map (fun kg => kg.2)) min_platforms)).take
          (max max_items 0).toNat).map emitEvent)

/-- C9 snapshot: a null meta value on the douyin platform. -/
def c9info : TitleInfo := [(douyinId, some [("t", none)])]

/-- Keyed sightings with key k among a flattened entries list, in order. -/
def keySightings (id_to_name : List (String × String)) (latest k : String)
    (es : List (String × String × Option TitleMeta)) : List Sighting :=
  es.filterMap fun e =>
    match sightingOf id_to_name latest e.1 (e.2.1, e.2.2) with
    | some (k2, s) => if k2 = k then some s else none
    | none => none

/-- The latest-batch sightings of the snapshot whose normalized key is k,
in iteration order. -/
def sightingsFor (title_info : TitleInfo) (id_to_name : List (String × String))
    (latest k : String) : List Sighting :=
  keySightings id_to_name latest k (flatEntries title_info)

/-- Merge of a sighting sequence into an optional group, the per-key
residue of the aggregation loop. -/
def mergeFold (g : Option EventGroup) (ss : List Sighting) : Option EventGroup :=
  ss.foldl
    (fun g2 s =>
      some (match g2 with
            | none => seedGroup s
            | some g3 => mergeSight s g3))
    g

/-- Keys of the groups dict in order. -/
def keysOf (gs : List (String × EventGroup)) : List String := gs.map fun kg => kg.1

/-- Meta with a single legacy rank observation at the latest batch time. -/
def rankMeta (r : Int) : TitleMeta := ⟨some "t", none, some [some r], none, none, none⟩

/-- C5 witness snapshot: a title of identical normalized text on two
platforms, both at the latest time. -/
def c5info : TitleInfo :=
  [("p1", some [("Breaking News", some (rankMeta 3))]),
   ("p2", some [("breaking  news", some (rankMeta 7))])]

/-- Shared normalized key of the two C5 titles. -/
def c5key : String := "breaking news"

/-- First C5 sighting. -/
def c5s1 : Sighting := ⟨"p1", "Breaking News", some 3, "", ""⟩

/-- Second C5 sighting. -/
def c5s2 : Sighting := ⟨"p2", "breaking  news", some 7, "", ""⟩

/-- C5 counterexample snapshot: the kk title appears with identical text on
two platforms of the latest batch, but with min_platforms three its group
is filtered away in favour of the three platform zz group, so no event
carries its key. -/
def c5cexInfo : TitleInfo :=
  [("p1", some [("zz", some (rankMeta 1)), ("kk", some (rankMeta 5))]),
   ("p2", some [("zz", some (rankMeta 1)), ("kk", some (rankMeta 6))]),
   ("p3", some [("zz", some (rankMeta 1))])]

/-- Key of the dropped C5 counterexample title. -/
def c5cexKey : String := "kk"

/-- C6 snapshot: a single title on a single platform forms one group. -/
def c6info : TitleInfo := [("p1", some [("solo", some (rankMeta 4))])]

/-- C7 counterexample snapshot: a parsed legacy rank of zero. -/
def c7info : TitleInfo := [("p1", some [("zero", some (rankMeta 0))])]

/-- C10 meta: a parseable rank timeline but no legacy ranks. -/
def c10meta : TitleMeta := ⟨some "t", some [some 5], none, none, none, none⟩

/-- C10 snapshot around c10meta. -/
def c10info : TitleInfo := [("p1", some [("timeline only", some c10meta)])]

/-- Meta with the rank_timeline field cleared. -/
def eraseMeta (m : TitleMeta) : TitleMeta := { m with rank_timeline := none }

/-- Snapshot with every rank_timeline cleared. -/
def eraseTimelines (title_info : TitleInfo) : TitleInfo :=
  title_info.map fun pt =>
    (pt.1, pt.2.map fun ts => ts.map fun tm => (tm.1, tm.2.map eraseMeta))

/-- Check that no meta of the snapshot has a usable legacy ranks value. -/
def ranksAllEmpty (title_info : TitleInfo) : Bool :=
  (flatEntries title_info).all fun e =>
    decide ((e.2.2.getD emptyMeta).ranks.getD [] = [])

/-- Sanity of one raw legacy rank value: when it parses, the rank is at
least one and strictly below the sentinel 9999. -/
def saneEntry : Option Int → Bool
  | some n => decide (1 ≤ n ∧ n < 9999)
  | none => true

/-- Check that every parsed legacy rank of the snapshot is a plausible real
rank: at least one and strictly below the sentinel 9999. -/
def saneRanks (title_info : TitleInfo) : Bool :=
  (flatEntries title_info).all fun e =>
    ((e.2.2.getD emptyMeta).ranks.getD []).all saneEntry

/-! ## Theorems -/

theorem dropLeadWs_eq_self (l : List Char)
    (h : (match l.head? with
          | some c => !pyIsWs c
          | none => true) = true) : dropLeadWs l = l := by
  cases l with
  | nil => rfl
  | cons c rest =>
    simp only [List.head?] at h
    simp only [Bool.not_eq_eq_eq_not, Bool.not_true] at h
    simp [dropLeadWs, List.dropWhile_cons, h]

theorem pyStrip_eq_self (l : List Char) (h : noEdgeWs l = true) : pyStrip l = l := by
  simp only [noEdgeWs, Bool.and_eq_true] at h
  obtain ⟨hh, ht⟩ := h
  have hrev : dropLeadWs l.reverse = l.reverse := by
    apply dropLeadWs_eq_self
    rw [List.head?_reverse]
    exact ht
  simp only [pyStrip, hrev, List.reverse_reverse]
  exact dropLeadWs_eq_self l hh

theorem map_asciiLower_eq_self (l : List Char)
    (h : l.all (fun c => asciiLower c == c) = true) : l.map asciiLower = l := by
  induction l with
  | nil => rfl
  | cons c rest ih =>
    simp only [List.all_cons, Bool.and_eq_true, beq_iff_eq] at h
    simp [List.map_cons, h.1, ih h.2]

theorem collapseAux_eq_self (l : List Char) :
    ∀ b, wsCanonAux l b = true → collapseAux l b = l := by
  induction l with
  | nil => intro b _; rfl
  | cons c rest ih =>
    intro b hw
    cases hc : pyIsWs c with
    | true =>
      cases b with
      | true =>
        simp only [wsCanonAux, hc, cond_true] at hw
        exact absurd hw Bool.false_ne_true
      | false =>
        simp only [wsCanonAux, hc, cond_true, cond_false, Bool.and_eq_true,
          beq_iff_eq] at hw
        obtain ⟨hsp, hrest⟩ := hw
        subst hsp
        simp only [collapseAux, hc, cond_true, cond_false, ih true hrest]
    | false =>
      simp only [wsCanonAux, hc, cond_false] at hw
      simp only [collapseAux, hc, cond_false, ih false hw]

theorem punctStrip_eq_self (l : List Char)
    (h : l.all (fun c => !pyIsPunct c) = true) : punctStrip l = l := by
  apply List.filter_eq_self.mpr
  exact List.all_eq_true.mp h

theorem normalize_eq_self_of_canonical (t : String) (h : normCanon t.data = true) :
    _normalize_title t = t := by
  simp only [normCanon, Bool.and_eq_true] at h
  obtain ⟨⟨⟨hp, hl⟩, he⟩, hw⟩ := h
  show String.mk (punctStrip (collapseWs ((pyStrip (clean_title t).data).map asciiLower))) = t
  rw [show clean_title t = t from rfl, pyStrip_eq_self t.data he,
    map_asciiLower_eq_self t.data hl]
  rw [show collapseWs t.data = collapseAux t.data false from rfl,
    collapseAux_eq_self t.data false hw, punctStrip_eq_self t.data hp]

/-- Claim C1 (amended): the normalizer is idempotent on every string whose
first normalization is canonical, that is free of punctuation, lower-case
stable, without edge whitespace and with collapsed single-space whitespace.
Unrestricted idempotence fails because deleting punctuation after the
whitespace pass can leave residual whitespace, see
normalize_not_idempotent. -/
theorem normalize_idem_of_canonical (s : String)
    (h : normCanon (_normalize_title s).data = true) :
    _normalize_title (_normalize_title s) = _normalize_title s :=
  normalize_eq_self_of_canonical (_normalize_title s) h

/-- Counterexample to claim C1 as stated: normalizing the three character
string of c1badInput yields the letter a followed by a trailing space,
because the dash is deleted only after whitespace was collapsed and the
ends trimmed; a second normalization then strips that space, so the two
results differ. -/
theorem normalize_not_idempotent :
    _normalize_title (_normalize_title c1badInput) ≠ _normalize_title c1badInput := by
  decide

/-- Witness for the amended claim C1 at a concrete input with letters and
an inner double space. -/
theorem normalize_idem_witness :
    normCanon (_normalize_title "Foo  Bar").data = true ∧
    _normalize_title (_normalize_title "Foo  Bar") = _normalize_title "Foo  Bar" :=
  ⟨by decide, normalize_idem_of_canonical "Foo  Bar" (by decide)⟩

theorem windowOf_nil (W : Int) : windowOf [] W = [] := by
  simp [windowOf, pyLastSlice]

theorem windowOf_length (P : List Int) (W : Int) :
    (windowOf P W).length = if 0 < W then min P.length W.toNat else P.length := by
  by_cases hW : 0 < W
  · simp only [windowOf, pyLastSlice, if_pos hW, List.length_drop]
    omega
  · simp only [windowOf, if_neg hW]

theorem improveSteps_eq_count : ∀ l : List Int,
    improveSteps l = (l.zip l.tail).countP (fun q => decide (q.2 < q.1))
  | [] => rfl
  | [_] => rfl
  | a :: b :: rest => by
    have ih := improveSteps_eq_count (b :: rest)
    show (if b < a then 1 else 0) + improveSteps (b :: rest) = _
    rw [ih]
    simp only [List.tail_cons, List.zip_cons_cons, List.countP_cons, decide_eq_true_eq]
    by_cases hba : b < a
    · omega
    · omega

theorem improveSteps_of_chain : ∀ l : List Int,
    List.Chain' (fun a b => b < a) l → improveSteps l = l.length - 1
  | [] => fun _ => rfl
  | [_] => fun _ => rfl
  | a :: b :: rest => fun h => by
    rw [List.chain'_cons] at h
    show (if b < a then 1 else 0) + improveSteps (b :: rest) = _
    rw [if_pos h.1, improveSteps_of_chain (b :: rest) h.2]
    simp only [List.length_cons]
    omega

/-- Claim C4: the window bookkeeping of the rising metrics calculator. The
used window size is the minimum of the point count and a positive window
parameter, and the whole sequence for a non-positive parameter; with at
least two windowed points the total improvement is first minus last point
of the window and the improving steps count the strictly decreasing
adjacent pairs, so a strictly decreasing window yields one step fewer than
its length; with fewer than two points both metrics are zero. -/
theorem calc_rising_metrics_spec (P : List Int) (W : Int) :
    ((0 < W → (_calc_rising_metrics P W).window_used = min P.length W.toNat) ∧
     (W ≤ 0 → (_calc_rising_metrics P W).window_used = P.length)) ∧
    (2 ≤ (windowOf P W).length →
      (_calc_rising_metrics P W).total_improve
        = (windowOf P W).headD 0 - (windowOf P W).getLastD 0 ∧
      (_calc_rising_metrics P W).improve_steps
        = ((windowOf P W).zip (windowOf P W).tail).countP (fun q => decide (q.2 < q.1))) ∧
    ((windowOf P W).length < 2 →
      (_calc_rising_metrics P W).total_improve = 0 ∧
      (_calc_rising_metrics P W).improve_steps = 0) ∧
    (List.Chain' (fun a b => b < a) (windowOf P W) →
      (_calc_rising_metrics P W).improve_steps = (windowOf P W).length - 1) := by
  have hwlen : (_calc_rising_metrics P W).window_used = (windowOf P W).length := by
    by_cases hP : P = []
    · subst hP
      simp [_calc_rising_metrics, windowOf_nil]
    · by_cases h2 : (windowOf P W).length < 2
      · simp [_calc_rising_metrics, if_neg hP, if_pos h2]
      · simp [_calc_rising_metrics, if_neg hP, if_neg h2]
  refine ⟨⟨?_, ?_⟩, ?_, ?_, ?_⟩
  · intro hW
    rw [hwlen, windowOf_length, if_pos hW]
  · intro hW
    rw [hwlen, windowOf_length, if_neg (by omega)]
  · intro h2
    have hP : P ≠ [] := by
      intro h
      subst h
      rw [windowOf_nil] at h2
      simp at h2
    constructor
    · simp [_calc_rising_metrics, if_neg hP, if_neg (by omega : ¬ (windowOf P W).length < 2)]
    · simp only [_calc_rising_metrics, if_neg hP,
        if_neg (by omega : ¬ (windowOf P W).length < 2)]
      exact improveSteps_eq_count (windowOf P W)
  · intro h2
    by_cases hP : P = []
    · subst hP
      simp [_calc_rising_metrics]
    · constructor <;> simp [_calc_rising_metrics, if_neg hP, if_pos h2]
  · intro hch
    by_cases hP : P = []
    · subst hP
      simp [_calc_rising_metrics, windowOf_nil]
    · by_cases h2 : (windowOf P W).length < 2
      · simp only [_calc_rising_metrics, if_neg hP, if_pos h2]
        omega
      · simp only [_calc_rising_metrics, if_neg hP, if_neg h2]
        exact improveSteps_of_chain (windowOf P W) hch

/-- Witness for claim C4 at the rank sequence of scenario A of the spec. -/
theorem calc_rising_metrics_witness :
    (_calc_rising_metrics [20, 15, 8] 4).window_used
      = min ([20, 15, 8] : List Int).length (4 : Int).toNat ∧
    (_calc_rising_metrics [20, 15, 8] 4).total_improve
      = (windowOf [20, 15, 8] 4).headD 0 - (windowOf [20, 15, 8] 4).getLastD 0 ∧
    (_calc_rising_metrics [20, 15, 8] 4).improve_steps
      = (windowOf [20, 15, 8] 4).length - 1 :=
  ⟨(calc_rising_metrics_spec [20, 15, 8] 4).1.1 (by decide),
   ((calc_rising_metrics_spec [20, 15, 8] 4).2.1 (by decide)).1,
   (calc_rising_metrics_spec [20, 15, 8] 4).2.2.2 (by
      have hw : windowOf [20, 15, 8] 4 = [20, 15, 8] := by decide
      rw [hw]
      exact List.chain'_cons.mpr ⟨by decide,
        List.chain'_cons.mpr ⟨by decide, List.chain'_singleton 8⟩⟩)⟩

theorem exceptOkBind {a b : Type} (x : a) (f : a → Except String b) :
    (Except.ok x >>= f) = f x := rfl

theorem build_douyin_focusE_ok_some (title_info : TitleInfo)
    (id_to_name : List (String × String))
    (matchesFn : Option MatchFn) (loadFn : Option LoadFn)
    (extra_keywords must_keywords : Option (List String))
    (allow_unfiltered_hot : Bool)
    (max_hot_items max_rising_items min_rank_improve min_total_improve
      min_consecutive_improve max_rank trend_points rising_window_points : Int)
    (platform_id : String) (r : FocusResult)
    (h : build_douyin_focusE title_info id_to_name matchesFn loadFn extra_keywords
      must_keywords allow_unfiltered_hot max_hot_items max_rising_items
      min_rank_improve min_total_improve min_consecutive_improve max_rank
      trend_points rising_window_points platform_id = Except.ok (some r)) :
    ∃ latest, _get_latest_timeE title_info platform_id = Except.ok (some latest) ∧
      r = douyinAssemble title_info id_to_name platform_id
        (mkDouyinCfg matchesFn loadFn extra_keywords must_keywords min_rank_improve
          min_total_improve min_consecutive_improve max_rank trend_points
          rising_window_points)
        latest allow_unfiltered_hot max_hot_items max_rising_items := by
  unfold build_douyin_focusE at h
  split at h
  · simp at h
  · cases hE : _get_latest_timeE title_info platform_id with
    | error e =>
      rw [hE] at h
      simp [Bind.bind, Except.bind] at h
    | ok latest? =>
      rw [hE, exceptOkBind] at h
      cases latest? with
      | none => simp [pure, Except.pure] at h
      | some latest =>
        refine ⟨latest, rfl, ?_⟩
        simp only [pure, Except.pure, Except.ok.injEq, Option.some.injEq] at h
        exact h.symm

theorem collectStep_shape (cfg : DouyinCfg) (latest : String) (rkm rlo : Bool)
    (acc : List FocusItem × List FocusItem) (tm : String × Option TitleMeta) :
    collectStep cfg latest rkm rlo acc tm = acc ∨
    ∃ item, collectStep cfg latest rkm rlo acc tm = (acc.1 ++ [item], acc.2 ++ [item]) ∨
            collectStep cfg latest rkm rlo acc tm = (acc.1 ++ [item], acc.2) := by
  simp only [collectStep]
  split_ifs <;>
    first
      | exact Or.inl rfl
      | exact Or.inr ⟨_, Or.inl rfl⟩
      | exact Or.inr ⟨_, Or.inr rfl⟩

theorem collectStep_inv (cfg : DouyinCfg) (latest : String) (rkm rlo : Bool)
    (acc : List FocusItem × List FocusItem) (tm : String × Option TitleMeta)
    (hacc : ∀ x ∈ acc.2, x ∈ acc.1) :
    ∀ x ∈ (collectStep cfg latest rkm rlo acc tm).2,
      x ∈ (collectStep cfg latest rkm rlo acc tm).1 := by
  rcases collectStep_shape cfg latest rkm rlo acc tm with h | ⟨item, h | h⟩ <;> rw [h]
  · exact hacc
  · intro x hx
    rcases List.mem_append.mp hx with hx | hx
    · exact List.mem_append.mpr (Or.inl (hacc x hx))
    · exact List.mem_append.mpr (Or.inr hx)
  · intro x hx
    exact List.mem_append.mpr (Or.inl (hacc x hx))

theorem collect_fold_inv (cfg : DouyinCfg) (latest : String) (rkm rlo : Bool) :
    ∀ (l : Titles) (acc : List FocusItem × List FocusItem),
      (∀ x ∈ acc.2, x ∈ acc.1) →
      ∀ x ∈ (l.foldl (collectStep cfg latest rkm rlo) acc).2,
        x ∈ (l.foldl (collectStep cfg latest rkm rlo) acc).1 := by
  intro l
  induction l with
  | nil => intro acc hacc; exact hacc
  | cons tm rest ih =>
    intro acc hacc
    exact ih (collectStep cfg latest rkm rlo acc tm)
      (collectStep_inv cfg latest rkm rlo acc tm hacc)

theorem douyinSelected_sub (title_info : TitleInfo) (platform_id : String)
    (cfg : DouyinCfg) (latest : String) (allow_unfiltered_hot : Bool) :
    ∀ x ∈ (douyinSelected title_info platform_id cfg latest allow_unfiltered_hot).2,
      x ∈ (douyinSelected title_info platform_id cfg latest allow_unfiltered_hot).1 := by
  unfold douyinSelected
  split
  · exact collect_fold_inv cfg latest false false (platTitles title_info platform_id)
      ([], []) (by intro x hx; simp at hx)
  · exact collect_fold_inv cfg latest true true (platTitles title_info platform_id)
      ([], []) (by intro x hx; simp at hx)

/-- Claim C2 (amended): every item of the returned rising list also stands
in the returned hot list whenever the hot list is not truncated, in
particular when max_hot_items is non-positive; before truncation the
rising collection is always contained in the hot collection. With a
positive max_hot_items the truncation can evict a rising item from the
hot list, see rising_not_subset_after_truncation. -/
theorem rising_subset_hot_untruncated (title_info : TitleInfo)
    (id_to_name : List (String × String))
    (matchesFn : Option MatchFn) (loadFn : Option LoadFn)
    (extra_keywords must_keywords : Option (List String))
    (allow_unfiltered_hot : Bool)
    (max_hot_items max_rising_items min_rank_improve min_total_improve
      min_consecutive_improve max_rank trend_points rising_window_points : Int)
    (platform_id : String) (r : FocusResult)
    (h : build_douyin_focusE title_info id_to_name matchesFn loadFn extra_keywords
      must_keywords allow_unfiltered_hot max_hot_items max_rising_items
      min_rank_improve min_total_improve min_consecutive_improve max_rank
      trend_points rising_window_points platform_id = Except.ok (some r))
    (hmax : max_hot_items ≤ 0) :
    ∀ x ∈ r.rising, x ∈ r.hot := by
  obtain ⟨latest, hlat, hr⟩ := build_douyin_focusE_ok_some title_info id_to_name
    matchesFn loadFn extra_keywords must_keywords allow_unfiltered_hot
    max_hot_items max_rising_items min_rank_improve min_total_improve
    min_consecutive_improve max_rank trend_points rising_window_points
    platform_id r h
  subst hr
  intro x hx
  simp only [douyinAssemble] at hx ⊢
  rw [if_neg (by omega : ¬ 0 < max_hot_items), List.take_length]
  have hx2 : x ∈ List.insertionSort risingLe
      (douyinSelected title_info platform_id
        (mkDouyinCfg matchesFn loadFn extra_keywords must_keywords min_rank_improve
          min_total_improve min_consecutive_improve max_rank trend_points
          rising_window_points) latest allow_unfiltered_hot).2 :=
    (List.take_sublist _ _).subset hx
  have hx3 := (List.perm_insertionSort risingLe _).mem_iff.mp hx2
  have hx4 := douyinSelected_sub title_info platform_id
    (mkDouyinCfg matchesFn loadFn extra_keywords must_keywords min_rank_improve
      min_total_improve min_consecutive_improve max_rank trend_points
      rising_window_points) latest allow_unfiltered_hot x hx3
  exact (List.perm_insertionSort hotLe _).mem_iff.mpr hx4

/-- Counterexample to claim C2 as stated: with max_hot_items one the hot
list keeps only the best ranked item while the rising list keeps the
climbing item, so the returned rising list is not contained in the
returned hot list. -/
theorem rising_not_subset_after_truncation :
    build_douyin_focusE c2info [] none none none none false 1 12 8 10 2 60 4 4 douyinId
        = Except.ok (some c2result) ∧
      c2itemB ∈ c2result.rising ∧ c2itemB ∉ c2result.hot := by
  refine ⟨by decide, by decide, by decide⟩

/-- Witness for the amended claim C2: the same snapshot with non-positive
max_hot_items keeps both items in the hot list and the rising item is
among them. -/
theorem rising_subset_hot_witness :
    c2itemB ∈ c2resultFull.rising ∧ c2itemB ∈ c2resultFull.hot :=
  ⟨by decide,
    rising_subset_hot_untruncated c2info [] none none none none false 0 12 8 10 2 60 4 4
      douyinId c2resultFull (by decide) (by decide) c2itemB (by decide)⟩

/-- Claim C8: the hot list of every returned focus result is sorted by
non-decreasing rank, and the rising list by non-increasing delta with ties
broken by non-decreasing rank. -/
theorem focus_lists_sorted (title_info : TitleInfo)
    (id_to_name : List (String × String))
    (matchesFn : Option MatchFn) (loadFn : Option LoadFn)
    (extra_keywords must_keywords : Option (List String))
    (allow_unfiltered_hot : Bool)
    (max_hot_items max_rising_items min_rank_improve min_total_improve
      min_consecutive_improve max_rank trend_points rising_window_points : Int)
    (platform_id : String) (r : FocusResult)
    (h : build_douyin_focusE title_info id_to_name matchesFn loadFn extra_keywords
      must_keywords allow_unfiltered_hot max_hot_items max_rising_items
      min_rank_improve min_total_improve min_consecutive_improve max_rank
      trend_points rising_window_points platform_id = Except.ok (some r)) :
    r.hot.Pairwise (fun a b => a.rank ≤ b.rank) ∧
    r.rising.Pairwise (fun a b =>
      b.delta ≤ a.delta ∧ (a.delta = b.delta → a.rank ≤ b.rank)) := by
  obtain ⟨latest, hlat, hr⟩ := build_douyin_focusE_ok_some title_info id_to_name
    matchesFn loadFn extra_keywords must_keywords allow_unfiltered_hot
    max_hot_items max_rising_items min_rank_improve min_total_improve
    min_consecutive_improve max_rank trend_points rising_window_points
    platform_id r h
  subst hr
  constructor
  · apply List.Pairwise.sublist (List.take_sublist _ _)
    exact List.sorted_insertionSort hotLe _
  · apply List.Pairwise.sublist (List.take_sublist _ _)
    apply List.Pairwise.imp ?_ (List.sorted_insertionSort risingLe _)
    intro a b hab
    rcases hab with h1 | ⟨e1, r1⟩
    · exact ⟨le_of_lt h1, fun he => absurd (he ▸ h1) (lt_irrefl _)⟩
    · exact ⟨le_of_eq e1.symm, fun _ => r1⟩

/-- Witness for claim C8 at the counterexample snapshot with untruncated
lists. -/
theorem focus_lists_sorted_witness :
    c2resultFull.hot.Pairwise (fun a b => a.rank ≤ b.rank) ∧
    c2resultFull.rising.Pairwise (fun a b =>
      b.delta ≤ a.delta ∧ (a.delta = b.delta → a.rank ≤ b.rank)) :=
  focus_lists_sorted c2info [] none none none none false 0 12 8 10 2 60 4 4
    douyinId c2resultFull (by decide)

theorem hotCurrentRankE_ok (m : TitleMeta) :
    hotCurrentRankE m = Except.ok (hotCurrentRank m) := by
  unfold hotCurrentRankE hotCurrentRank
  by_cases h : m.ranks.getD [] = []
  · rw [if_pos h, if_pos h]
  · rw [if_neg h, if_neg h]
    cases (m.ranks.getD []).getLastD none with
    | none => rfl
    | some n => rfl

theorem hotStepE_ok (id_to_name : List (String × String)) (latest : String)
    (gs : List (String × EventGroup)) (e : String × String × Option TitleMeta) :
    hotStepE id_to_name latest gs e = Except.ok (hotStep id_to_name latest gs e) := by
  unfold hotStepE hotStep sightingOf
  by_cases h1 : (e.2.2.getD emptyMeta).last_time ≠ some latest
  · rw [if_pos h1, if_pos h1]
    rfl
  · rw [if_neg h1, if_neg h1]
    by_cases h2 : _normalize_title e.2.1 = ""
    · rw [if_pos h2, if_pos h2]
      rfl
    · rw [if_neg h2, if_neg h2]
      rw [hotCurrentRankE_ok, exceptOkBind]
      rfl

theorem foldlM_except_ok {s a : Type} (fE : s → a → Except String s) (f : s → a → s)
    (hf : ∀ st x, fE st x = Except.ok (f st x)) :
    ∀ (l : List a) (init : s), l.foldlM fE init = Except.ok (l.foldl f init) := by
  intro l
  induction l with
  | nil => intro init; rfl
  | cons x rest ih =>
    intro init
    show (fE init x >>= fun st => rest.foldlM fE st) = _
    rw [hf init x, exceptOkBind, ih]
    rfl

/-- Claim C9 (code bug in the source): the claim promises that neither
builder raises on malformed rows, including null metas. The hot events
aggregator indeed never raises: its exception-explicit embedding returns
ok on every snapshot. The focus builder however raises AttributeError on
a snapshot carrying a null meta for its platform, because _get_latest_time
of douyin_focus.py line 16 reads the meta without the meta or {} guard
that every other meta access of the two modules applies. -/
theorem null_meta_crash_contrast :
    (∀ (title_info : TitleInfo) (id_to_name : List (String × String))
        (max_items min_platforms : Int),
      build_hot_eventsE title_info id_to_name max_items min_platforms
        = Except.ok (build_hot_events title_info id_to_name max_items min_platforms)) ∧
    build_douyin_focusE c9info [] none none none none false 20 12 8 10 2 60 4 4 douyinId
      = Except.error attributeError ∧
    build_hot_eventsE c9info [] 15 2 = Except.ok [] := by
  refine ⟨?_, by decide, by decide⟩
  intro title_info id_to_name max_items min_platforms
  unfold build_hot_eventsE build_hot_events
  by_cases h0 : title_info = []
  · rw [if_pos h0, if_pos h0]
  · rw [if_neg h0, if_neg h0]
    cases hL : hotLatest title_info with
    | none => rfl
    | some latest =>
      dsimp only
      rw [foldlM_except_ok (hotStepE id_to_name latest) (hotStep id_to_name latest)
        (hotStepE_ok id_to_name latest), exceptOkBind]
      show (if (hotGroups title_info id_to_name latest).map (fun kg => kg.2) = []
        then _ else _) = _
      by_cases hE : (hotGroups title_info id_to_name latest).map (fun kg => kg.2) = []
      · rw [if_pos hE]
        unfold hotEventsRaw
        rw [if_pos hE]
        rfl
      · rw [if_neg hE]
        unfold hotEventsRaw
        rw [if_neg hE]
        rfl

/-- Claim C3: the truncation semantics differ between the two builders.
For the focus builder a positive max_hot_items bounds the hot list length
and a non-positive one returns the sorted hot collection untruncated; for
the events aggregator every non-positive max_items yields the empty
list. -/
theorem truncation_semantics (title_info : TitleInfo)
    (id_to_name : List (String × String))
    (matchesFn : Option MatchFn) (loadFn : Option LoadFn)
    (extra_keywords must_keywords : Option (List String))
    (allow_unfiltered_hot : Bool)
    (max_hot_items max_rising_items min_rank_improve min_total_improve
      min_consecutive_improve max_rank trend_points rising_window_points
      max_items min_platforms : Int)
    (platform_id : String) (r : FocusResult)
    (h : build_douyin_focusE title_info id_to_name matchesFn loadFn extra_keywords
      must_keywords allow_unfiltered_hot max_hot_items max_rising_items
      min_rank_improve min_total_improve min_consecutive_improve max_rank
      trend_points rising_window_points platform_id = Except.ok (some r)) :
    (0 < max_hot_items → (r.hot.length : Int) ≤ max_hot_items) ∧
    (max_hot_items ≤ 0 → ∃ latest,
      _get_latest_timeE title_info platform_id = Except.ok (some latest) ∧
      r.hot = List.insertionSort hotLe
        (douyinSelected title_info platform_id
          (mkDouyinCfg matchesFn loadFn extra_keywords must_keywords min_rank_improve
            min_total_improve min_consecutive_improve max_rank trend_points
            rising_window_points) latest allow_unfiltered_hot).1) ∧
    (max_items ≤ 0 →
      build_hot_events title_info id_to_name max_items min_platforms = []) := by
  obtain ⟨latest, hlat, hr⟩ := build_douyin_focusE_ok_some title_info id_to_name
    matchesFn loadFn extra_keywords must_keywords allow_unfiltered_hot
    max_hot_items max_rising_items min_rank_improve min_total_improve
    min_consecutive_improve max_rank trend_points rising_window_points
    platform_id r h
  refine ⟨?_, ?_, ?_⟩
  · intro hpos
    subst hr
    simp only [douyinAssemble, if_pos hpos, List.length_take]
    omega
  · intro hneg
    subst hr
    refine ⟨latest, hlat, ?_⟩
    simp only [douyinAssemble, if_neg (by omega : ¬ 0 < max_hot_items), List.take_length]
  · intro hneg
    unfold build_hot_events
    have hz : (max max_items 0).toNat = 0 := by omega
    by_cases h0 : title_info = []
    · rw [if_pos h0]
    · rw [if_neg h0]
      cases hL : hotLatest title_info with
      | none => rfl
      | some latest2 =>
        dsimp only
        by_cases hE : hotEventsRaw title_info id_to_name latest2 = []
        · rw [if_pos hE]
        · rw [if_neg hE, hz, List.take_zero, List.map_nil]

/-- Witness for claim C3 at the truncation counterexample snapshot, with
max_hot_items one, max_hot_items zero, and max_items zero. -/
theorem truncation_semantics_witness :
    ((c2result.hot.length : Int) ≤ 1) ∧
    (∃ latest, _get_latest_timeE c2info douyinId = Except.ok (some latest) ∧
      c2resultFull.hot = List.insertionSort hotLe
        (douyinSelected c2info douyinId
          (mkDouyinCfg none none none none 8 10 2 60 4 4) latest false).1) ∧
    build_hot_events c2info [] 0 2 = [] :=
  ⟨(truncation_semantics c2info [] none none none none false 1 12 8 10 2 60 4 4 0 2
      douyinId c2result (by decide)).1 (by decide),
   (truncation_semantics c2info [] none none none none false 0 12 8 10 2 60 4 4 0 2
      douyinId c2resultFull (by decide)).2.1 (by decide),
   (truncation_semantics c2info [] none none none none false 0 12 8 10 2 60 4 4 0 2
      douyinId c2resultFull (by decide)).2.2 (by decide)⟩

theorem lookup_cons_self (k : String) (g : EventGroup)
    (rest : List (String × EventGroup)) :
    List.lookup k ((k, g) :: rest) = some g := by
  simp [List.lookup]

theorem lookup_cons_other (k k2 : String) (g : EventGroup)
    (rest : List (String × EventGroup)) (h : ¬ k = k2) :
    List.lookup k ((k2, g) :: rest) = List.lookup k rest := by
  cases hb : k == k2 with
  | true => exact absurd (beq_iff_eq.mp hb) h
  | false => simp [List.lookup, hb]

theorem lookup_alistModify_self (k : String) (f : EventGroup → EventGroup) :
    ∀ gs, List.lookup k (alistModify k f gs) = (List.lookup k gs).map f
  | [] => rfl
  | (k2, g) :: rest => by
    by_cases h : k2 = k
    · subst h
      rw [alistModify, if_pos rfl, lookup_cons_self, lookup_cons_self]
      rfl
    · have hne : ¬ k = k2 := fun hh => h hh.symm
      rw [alistModify, if_neg h, lookup_cons_other k k2 g (alistModify k f rest) hne,
        lookup_cons_other k k2 g rest hne]
      exact lookup_alistModify_self k f rest

theorem lookup_alistModify_other (k k2 : String) (f : EventGroup → EventGroup)
    (h : ¬ k2 = k) :
    ∀ gs, List.lookup k2 (alistModify k f gs) = List.lookup k2 gs
  | [] => rfl
  | (k3, g) :: rest => by
    by_cases hk : k3 = k
    · subst hk
      rw [alistModify, if_pos rfl, lookup_cons_other k2 k3 (f g) rest h,
        lookup_cons_other k2 k3 g rest h]
    · rw [alistModify, if_neg hk]
      by_cases hk2 : k2 = k3
      · subst hk2
        rw [lookup_cons_self, lookup_cons_self]
      · rw [lookup_cons_other k2 k3 g (alistModify k f rest) hk2,
          lookup_cons_other k2 k3 g rest hk2]
        exact lookup_alistModify_other k k2 f h rest

theorem lookup_append_single_self (k : String) (v : EventGroup) :
    ∀ gs, List.lookup k gs = none → List.lookup k (gs ++ [(k, v)]) = some v
  | [], _ => by
    rw [List.nil_append, lookup_cons_self]
  | (k2, g) :: rest, h => by
    by_cases hk : k = k2
    · subst hk
      rw [lookup_cons_self] at h
      cases h
    · rw [List.cons_append, lookup_cons_other k k2 g (rest ++ [(k, v)]) hk]
      rw [lookup_cons_other k k2 g rest hk] at h
      exact lookup_append_single_self k v rest h

theorem lookup_append_single_other (k k2 : String) (v : EventGroup) (h : ¬ k = k2) :
    ∀ gs, List.lookup k (gs ++ [(k2, v)]) = List.lookup k gs
  | [] => by
    rw [List.nil_append, lookup_cons_other k k2 v [] h]
  | (k3, g) :: rest => by
    by_cases hk : k = k3
    · subst hk
      rw [List.cons_append, lookup_cons_self, lookup_cons_self]
    · rw [List.cons_append, lookup_cons_other k k3 g (rest ++ [(k2, v)]) hk,
        lookup_cons_other k k3 g rest hk]
      exact lookup_append_single_other k k2 v h rest

theorem lookup_addSighting_self (gs : List (String × EventGroup)) (k : String)
    (s : Sighting) :
    List.lookup k (addSighting gs k s)
      = some (match List.lookup k gs with
              | none => seedGroup s
              | some g => mergeSight s g) := by
  unfold addSighting
  cases hL : List.lookup k gs with
  | none => exact lookup_append_single_self k (seedGroup s) gs hL
  | some g =>
    rw [lookup_alistModify_self k (mergeSight s) gs, hL]
    rfl

theorem lookup_addSighting_other (gs : List (String × EventGroup)) (k k2 : String)
    (s : Sighting) (h : ¬ k2 = k) :
    List.lookup k2 (addSighting gs k s) = List.lookup k2 gs := by
  unfold addSighting
  cases List.lookup k gs with
  | none => exact lookup_append_single_other k2 k (seedGroup s) h gs
  | some g => exact lookup_alistModify_other k k2 (mergeSight s) h gs

theorem mem_alistModify (k : String) (f : EventGroup → EventGroup) :
    ∀ gs x, x ∈ alistModify k f gs → x ∈ gs ∨ ∃ g, (k, g) ∈ gs ∧ x = (k, f g)
  | [], x, hx => Or.inl hx
  | (k2, g) :: rest, x, hx => by
    by_cases hk : k2 = k
    · subst hk
      rw [alistModify, if_pos rfl] at hx
      rcases List.mem_cons.mp hx with h | h
      · exact Or.inr ⟨g, List.mem_cons_self (k2, g) rest, h⟩
      · exact Or.inl (List.mem_cons_of_mem (k2, g) h)
    · rw [alistModify, if_neg hk] at hx
      rcases List.mem_cons.mp hx with h | h
      · exact Or.inl (List.mem_cons.mpr (Or.inl h))
      · rcases mem_alistModify k f rest x h with h2 | ⟨g2, hg2, hx2⟩
        · exact Or.inl (List.mem_cons_of_mem (k2, g) h2)
        · exact Or.inr ⟨g2, List.mem_cons_of_mem (k2, g) hg2, hx2⟩

theorem mem_addSighting (gs : List (String × EventGroup)) (k : String) (s : Sighting)
    (x : String × EventGroup) (hx : x ∈ addSighting gs k s) :
    x ∈ gs ∨ x = (k, seedGroup s) ∨ ∃ g, (k, g) ∈ gs ∧ x = (k, mergeSight s g) := by
  unfold addSighting at hx
  cases hL : List.lookup k gs with
  | none =>
    rw [hL] at hx
    rcases List.mem_append.mp hx with h | h
    · exact Or.inl h
    · exact Or.inr (Or.inl (List.mem_singleton.mp h))
  | some g =>
    rw [hL] at hx
    rcases mem_alistModify k (mergeSight s) gs x hx with h | ⟨g2, hg2, hx2⟩
    · exact Or.inl h
    · exact Or.inr (Or.inr ⟨g2, hg2, hx2⟩)

theorem hotStep_mem (id_to_name : List (String × String)) (latest : String)
    (gs : List (String × EventGroup)) (e : String × String × Option TitleMeta)
    (x : String × EventGroup) (hx : x ∈ hotStep id_to_name latest gs e) :
    x ∈ gs ∨ ∃ k s, sightingOf id_to_name latest e.1 (e.2.1, e.2.2) = some (k, s) ∧
      (x = (k, seedGroup s) ∨ ∃ g, (k, g) ∈ gs ∧ x = (k, mergeSight s g)) := by
  unfold hotStep at hx
  cases hS : sightingOf id_to_name latest e.1 (e.2.1, e.2.2) with
  | none =>
    rw [hS] at hx
    exact Or.inl hx
  | some ks =>
    rw [hS] at hx
    obtain ⟨k, s⟩ := ks
    rcases mem_addSighting gs k s x hx with h | h | h
    · exact Or.inl h
    · exact Or.inr ⟨k, s, rfl, Or.inl h⟩
    · exact Or.inr ⟨k, s, rfl, Or.inr h⟩

theorem sightingOf_eq (id_to_name : List (String × String)) (latest pid : String)
    (tm : String × Option TitleMeta) (k : String) (s : Sighting)
    (h : sightingOf id_to_name latest pid tm = some (k, s)) :
    k = _normalize_title tm.1 ∧
    s = { pname := lookupD id_to_name pid pid, title := tm.1,
          rank := hotCurrentRank (tm.2.getD emptyMeta),
          url := (tm.2.getD emptyMeta).url.getD "",
          mobile := pyMobile (tm.2.getD emptyMeta) } := by
  unfold sightingOf at h
  by_cases h1 : (tm.2.getD emptyMeta).last_time ≠ some latest
  · rw [if_pos h1] at h
    exact Option.noConfusion h
  · rw [if_neg h1] at h
    by_cases h2 : _normalize_title tm.1 = ""
    · rw [if_pos h2] at h
      exact Option.noConfusion h
    · rw [if_neg h2] at h
      simp only [Option.some.injEq, Prod.mk.injEq] at h
      exact ⟨h.1.symm, h.2.symm⟩

theorem foldl_hotStep_invariant (id_to_name : List (String × String)) (latest : String)
    (P : String × EventGroup → Prop)
    (Q : String × String × Option TitleMeta → Prop)
    (hstep : ∀ gs e, Q e → (∀ x ∈ gs, P x) → ∀ x ∈ hotStep id_to_name latest gs e, P x) :
    ∀ (es : List (String × String × Option TitleMeta)) gs,
      (∀ e ∈ es, Q e) → (∀ x ∈ gs, P x) →
      ∀ x ∈ es.foldl (hotStep id_to_name latest) gs, P x
  | [], _, _, hgs => hgs
  | e :: rest, gs, hes, hgs => by
    rw [List.foldl_cons]
    exact foldl_hotStep_invariant id_to_name latest P Q hstep rest
      (hotStep id_to_name latest gs e)
      (fun e2 he2 => hes e2 (List.mem_cons_of_mem e he2))
      (hstep gs e (hes e (List.mem_cons_self e rest)) hgs)

theorem seedGroup_title (s : Sighting) : (seedGroup s).title = s.title := rfl

theorem seedGroup_platforms (s : Sighting) : (seedGroup s).platforms = [s.pname] := rfl

theorem seedGroup_count (s : Sighting) : (seedGroup s).platform_count = 1 := rfl

theorem seedGroup_best (s : Sighting) : (seedGroup s).best_rank = s.rank.getD 9999 := rfl

theorem mergeSight_title (s : Sighting) (g : EventGroup) :
    (mergeSight s g).title
      = if g.title.length < s.title.length then s.title else g.title := rfl

theorem mergeSight_platforms (s : Sighting) (g : EventGroup) :
    (mergeSight s g).platforms
      = if s.pname ∈ g.platforms then g.platforms else g.platforms ++ [s.pname] := rfl

theorem mergeSight_count (s : Sighting) (g : EventGroup) :
    (mergeSight s g).platform_count
      = if s.pname ∈ g.platforms then g.platform_count else g.platform_count + 1 := rfl

theorem mergeSight_best (s : Sighting) (g : EventGroup) :
    (mergeSight s g).best_rank
      = match s.rank with
        | some r => if r < g.best_rank then r else g.best_rank
        | none => g.best_rank := rfl

theorem keysOf_alistModify (k : String) (f : EventGroup → EventGroup) :
    ∀ gs, keysOf (alistModify k f gs) = keysOf gs
  | [] => rfl
  | (k2, g) :: rest => by
    by_cases hk : k2 = k
    · subst hk
      rw [alistModify, if_pos rfl]
      rfl
    · rw [alistModify, if_neg hk]
      show k2 :: keysOf (alistModify k f rest) = k2 :: keysOf rest
      rw [keysOf_alistModify k f rest]

theorem not_mem_keys_of_lookup_none (k : String) :
    ∀ gs, List.lookup k gs = none → k ∉ keysOf gs
  | [], _, hm => absurd hm (List.not_mem_nil k)
  | (k2, g) :: rest, h, hm => by
    by_cases hk : k = k2
    · subst hk
      rw [lookup_cons_self] at h
      exact Option.noConfusion h
    · rw [lookup_cons_other k k2 g rest hk] at h
      rcases List.mem_cons.mp hm with h2 | h2
      · exact hk h2
      · exact not_mem_keys_of_lookup_none k rest h h2

theorem keysOf_append_single (gs : List (String × EventGroup)) (k : String)
    (v : EventGroup) : keysOf (gs ++ [(k, v)]) = keysOf gs ++ [k] := by
  unfold keysOf
  rw [List.map_append]
  rfl

theorem keysOf_addSighting_nodup (gs : List (String × EventGroup)) (k : String)
    (s : Sighting) (hnd : (keysOf gs).Nodup) : (keysOf (addSighting gs k s)).Nodup := by
  unfold addSighting
  cases hL : List.lookup k gs with
  | none =>
    have hk : k ∉ keysOf gs := not_mem_keys_of_lookup_none k gs hL
    rw [keysOf_append_single]
    simp [List.nodup_append, hnd, hk]
  | some g =>
    rw [keysOf_alistModify]
    exact hnd

theorem hotGroups_keys_nodup_aux (id_to_name : List (String × String)) (latest : String) :
    ∀ (es : List (String × String × Option TitleMeta)) gs,
      (keysOf gs).Nodup → (keysOf (es.foldl (hotStep id_to_name latest) gs)).Nodup
  | [], _, h => h
  | e :: rest, gs, h => by
    rw [List.foldl_cons]
    apply hotGroups_keys_nodup_aux id_to_name latest rest
    unfold hotStep
    cases sightingOf id_to_name latest e.1 (e.2.1, e.2.2) with
    | none => exact h
    | some ks => exact keysOf_addSighting_nodup gs ks.1 ks.2 h

theorem hotGroups_keys_nodup (title_info : TitleInfo)
    (id_to_name : List (String × String)) (latest : String) :
    (keysOf (hotGroups title_info id_to_name latest)).Nodup :=
  hotGroups_keys_nodup_aux id_to_name latest (flatEntries title_info) [] List.nodup_nil

theorem lookup_eq_some_of_mem_nodup (k : String) (g : EventGroup) :
    ∀ gs, (keysOf gs).Nodup → (k, g) ∈ gs → List.lookup k gs = some g
  | [], _, hm => absurd hm (List.not_mem_nil _)
  | (k2, g2) :: rest, hnd, hm => by
    rcases List.mem_cons.mp hm with h | h
    · injection h with h1 h2
      subst h1
      subst h2
      rw [lookup_cons_self]
    · by_cases hk : k = k2
      · subst hk
        have hmem : k ∈ keysOf rest := List.mem_map_of_mem (fun kg => kg.1) h
        have hnd2 := List.nodup_cons.mp hnd
        exact absurd hmem hnd2.1
      · rw [lookup_cons_other k k2 g2 rest hk]
        exact lookup_eq_some_of_mem_nodup k g rest (List.nodup_cons.mp hnd).2 h

theorem mem_of_lookup_eq_some (k : String) (g : EventGroup) :
    ∀ gs, List.lookup k gs = some g → (k, g) ∈ gs
  | [], h => Option.noConfusion h
  | (k2, g2) :: rest, h => by
    by_cases hk : k = k2
    · subst hk
      rw [lookup_cons_self] at h
      injection h with h2
      subst h2
      exact List.mem_cons_self (k, g2) rest
    · rw [lookup_cons_other k k2 g2 rest hk] at h
      exact List.mem_cons_of_mem (k2, g2) (mem_of_lookup_eq_some k g rest h)

theorem lookup_foldl_hotStep (id_to_name : List (String × String)) (latest k : String) :
    ∀ (es : List (String × String × Option TitleMeta)) gs,
      List.lookup k (es.foldl (hotStep id_to_name latest) gs)
        = mergeFold (List.lookup k gs) (keySightings id_to_name latest k es)
  | [], gs => rfl
  | e :: rest, gs => by
    rw [List.foldl_cons]
    cases hS : sightingOf id_to_name latest e.1 (e.2.1, e.2.2) with
    | none =>
      have h1 : hotStep id_to_name latest gs e = gs := by
        unfold hotStep
        rw [hS]
      have h2 : keySightings id_to_name latest k (e :: rest)
          = keySightings id_to_name latest k rest := by
        unfold keySightings
        rw [List.filterMap_cons, hS]
      rw [h1, h2]
      exact lookup_foldl_hotStep id_to_name latest k rest gs
    | some ks =>
      obtain ⟨k2, s⟩ := ks
      have h1 : hotStep id_to_name latest gs e = addSighting gs k2 s := by
        unfold hotStep
        rw [hS]
      by_cases hk : k2 = k
      · subst hk
        have h2 : keySightings id_to_name latest k2 (e :: rest)
            = s :: keySightings id_to_name latest k2 rest := by
          unfold keySightings
          rw [List.filterMap_cons, hS]
          simp
        rw [h1, h2, lookup_foldl_hotStep id_to_name latest k2 rest (addSighting gs k2 s),
          lookup_addSighting_self]
        cases List.lookup k2 gs <;> rfl
      · have hk2 : ¬ k = k2 := fun hh => hk hh.symm
        have h2 : keySightings id_to_name latest k (e :: rest)
            = keySightings id_to_name latest k rest := by
          unfold keySightings
          rw [List.filterMap_cons, hS]
          simp [hk]
        rw [h1, h2, lookup_foldl_hotStep id_to_name latest k rest (addSighting gs k2 s),
          lookup_addSighting_other gs k2 k s hk2]

theorem hotGroups_key_inv (title_info : TitleInfo) (id_to_name : List (String × String))
    (latest : String) :
    ∀ x ∈ hotGroups title_info id_to_name latest, _normalize_title x.2.title = x.1 := by
  apply foldl_hotStep_invariant id_to_name latest
    (fun x => _normalize_title x.2.title = x.1) (fun _ => True) ?hstep
    (flatEntries title_info) [] (fun _ _ => trivial)
    (fun x hx => absurd hx (List.not_mem_nil x))
  case hstep =>
    intro gs e _ hgs x hx
    rcases hotStep_mem id_to_name latest gs e x hx with h | ⟨k, s, hS, hx2⟩
    · exact hgs x h
    · obtain ⟨hk, hs⟩ := sightingOf_eq id_to_name latest e.1 (e.2.1, e.2.2) k s hS
      rcases hx2 with h | ⟨g, hg, h⟩
      · subst h
        show _normalize_title (seedGroup s).title = k
        rw [seedGroup_title, hs]
        exact hk.symm
      · subst h
        show _normalize_title (mergeSight s g).title = k
        rw [mergeSight_title]
        by_cases hlen : g.title.length < s.title.length
        · rw [if_pos hlen, hs]
          exact hk.symm
        · rw [if_neg hlen]
          exact hgs (k, g) hg

theorem hotGroups_count_pos (title_info : TitleInfo) (id_to_name : List (String × String))
    (latest : String) :
    ∀ x ∈ hotGroups title_info id_to_name latest, 1 ≤ x.2.platform_count := by
  apply foldl_hotStep_invariant id_to_name latest
    (fun x => 1 ≤ x.2.platform_count) (fun _ => True) ?hstep
    (flatEntries title_info) [] (fun _ _ => trivial)
    (fun x hx => absurd hx (List.not_mem_nil x))
  case hstep =>
    intro gs e _ hgs x hx
    rcases hotStep_mem id_to_name latest gs e x hx with h | ⟨k, s, hS, hx2⟩
    · exact hgs x h
    · rcases hx2 with h | ⟨g, hg, h⟩
      · subst h
        show 1 ≤ (seedGroup s).platform_count
        rw [seedGroup_count]
      · subst h
        show 1 ≤ (mergeSight s g).platform_count
        rw [mergeSight_count]
        have := hgs (k, g) hg
        by_cases hmem : s.pname ∈ g.platforms
        · rw [if_pos hmem]
          exact this
        · rw [if_neg hmem]
          omega

theorem getLastD_mem {α : Type} : ∀ (l : List α) (d : α), l = [] ∨ l.getLastD d ∈ l
  | [], _ => Or.inl rfl
  | a :: rest, d => by
    rw [List.getLastD_cons]
    rcases getLastD_mem rest a with h | h
    · subst h
      exact Or.inr (List.mem_singleton.mpr rfl)
    · exact Or.inr (List.mem_cons_of_mem a h)

theorem hotCurrentRank_some_mem (m : TitleMeta) (r : Int)
    (h : hotCurrentRank m = some r) : some r ∈ m.ranks.getD [] := by
  unfold hotCurrentRank at h
  by_cases he : m.ranks.getD [] = []
  · rw [if_pos he] at h
    exact Option.noConfusion h
  · rw [if_neg he] at h
    rcases getLastD_mem (m.ranks.getD []) none with h2 | h2
    · exact absurd h2 he
    · rw [h] at h2
      exact h2

theorem hotCurrentRank_of_empty (m : TitleMeta) (h : m.ranks.getD [] = []) :
    hotCurrentRank m = none := by
  unfold hotCurrentRank
  rw [if_pos h]

theorem hotGroups_best_sane (title_info : TitleInfo) (id_to_name : List (String × String))
    (latest : String) (hsane : saneRanks title_info = true) :
    ∀ x ∈ hotGroups title_info id_to_name latest,
      (1 ≤ x.2.best_rank ∧ x.2.best_rank < 9999) ∨ x.2.best_rank = 9999 := by
  apply foldl_hotStep_invariant id_to_name latest
    (fun x => (1 ≤ x.2.best_rank ∧ x.2.best_rank < 9999) ∨ x.2.best_rank = 9999)
    (fun e => (((e.2.2.getD emptyMeta).ranks.getD []).all saneEntry) = true) ?hstep
    (flatEntries title_info) [] (List.all_eq_true.mp hsane)
    (fun x hx => absurd hx (List.not_mem_nil x))
  case hstep =>
    intro gs e hQ hgs x hx
    rcases hotStep_mem id_to_name latest gs e x hx with h | ⟨k, s, hS, hx2⟩
    · exact hgs x h
    · obtain ⟨hk, hs⟩ := sightingOf_eq id_to_name latest e.1 (e.2.1, e.2.2) k s hS
      have hrank : ∀ r, s.rank = some r → 1 ≤ r ∧ r < 9999 := by
        intro r hr
        rw [hs] at hr
        have hmem := hotCurrentRank_some_mem (e.2.2.getD emptyMeta) r hr
        have hok := List.all_eq_true.mp hQ (some r) hmem
        exact of_decide_eq_true hok
      rcases hx2 with h | ⟨g, hg, h⟩
      · subst h
        show (1 ≤ (seedGroup s).best_rank ∧ (seedGroup s).best_rank < 9999)
          ∨ (seedGroup s).best_rank = 9999
        rw [seedGroup_best]
        cases hr : s.rank with
        | none => exact Or.inr rfl
        | some r =>
          have h1 := hrank r hr
          exact Or.inl ⟨h1.1, h1.2⟩
      · subst h
        show (1 ≤ (mergeSight s g).best_rank ∧ (mergeSight s g).best_rank < 9999)
          ∨ (mergeSight s g).best_rank = 9999
        rw [mergeSight_best]
        cases hr : s.rank with
        | none => exact hgs (k, g) hg
        | some r =>
          have h1 := hrank r hr
          show (1 ≤ (if r < g.best_rank then r else g.best_rank) ∧
              (if r < g.best_rank then r else g.best_rank) < 9999)
            ∨ (if r < g.best_rank then r else g.best_rank) = 9999
          by_cases hlt : r < g.best_rank
          · rw [if_pos hlt]
            exact Or.inl ⟨h1.1, h1.2⟩
          · rw [if_neg hlt]
            exact hgs (k, g) hg

theorem hotGroups_best_sentinel (title_info : TitleInfo)
    (id_to_name : List (String × String)) (latest : String)
    (hempty : ranksAllEmpty title_info = true) :
    ∀ x ∈ hotGroups title_info id_to_name latest, x.2.best_rank = 9999 := by
  apply foldl_hotStep_invariant id_to_name latest
    (fun x => x.2.best_rank = 9999)
    (fun e => decide ((e.2.2.getD emptyMeta).ranks.getD [] = []) = true) ?hstep
    (flatEntries title_info) [] (List.all_eq_true.mp hempty)
    (fun x hx => absurd hx (List.not_mem_nil x))
  case hstep =>
    intro gs e hQ hgs x hx
    rcases hotStep_mem id_to_name latest gs e x hx with h | ⟨k, s, hS, hx2⟩
    · exact hgs x h
    · obtain ⟨hk, hs⟩ := sightingOf_eq id_to_name latest e.1 (e.2.1, e.2.2) k s hS
      have hnone : s.rank = none := by
        rw [hs]
        exact hotCurrentRank_of_empty (e.2.2.getD emptyMeta) (of_decide_eq_true hQ)
      rcases hx2 with h | ⟨g, hg, h⟩
      · subst h
        show (seedGroup s).best_rank = 9999
        rw [seedGroup_best, hnone]
        rfl
      · subst h
        show (mergeSight s g).best_rank = 9999
        rw [mergeSight_best, hnone]
        exact hgs (k, g) hg

theorem countP_events_eq_keys (k : String) :
    ∀ gs : List (String × EventGroup),
      (∀ x ∈ gs, _normalize_title x.2.title = x.1) →
      (gs.map fun kg => kg.2).countP (fun g => _normalize_title g.title == k)
        = (keysOf gs).countP (fun k2 => k2 == k)
  | [], _ => rfl
  | kg :: rest, hinv => by
    have hhead := hinv kg (List.mem_cons_self kg rest)
    rw [List.map_cons, List.countP_cons]
    show _ = List.countP (fun k2 => k2 == k) (kg.1 :: keysOf rest)
    rw [List.countP_cons, countP_events_eq_keys k rest
      (fun x hx => hinv x (List.mem_cons_of_mem kg hx))]
    congr 1
    rw [hhead]

theorem countP_keys_le_one (k : String) (ks : List String) (hnd : ks.Nodup) :
    ks.countP (fun k2 => k2 == k) ≤ 1 := by
  show List.count k ks ≤ 1
  exact List.nodup_iff_count_le_one.mp hnd k

theorem countP_keys_eq_one (k : String) (ks : List String) (hnd : ks.Nodup)
    (hm : k ∈ ks) : ks.countP (fun k2 => k2 == k) = 1 := by
  show List.count k ks = 1
  exact List.count_eq_one_of_mem hnd hm

theorem build_hot_events_unfold (title_info : TitleInfo)
    (id_to_name : List (String × String)) (max_items min_platforms : Int)
    (latest : String) (hti : title_info ≠ [])
    (hlat : hotLatest title_info = some latest)
    (hne : hotEventsRaw title_info id_to_name latest ≠ []) :
    build_hot_events title_info id_to_name max_items min_platforms
      = ((List.insertionSort eventLe
          (hotSelected (hotEventsRaw title_info id_to_name latest) min_platforms)).take
        (max max_items 0).toNat).map emitEvent := by
  unfold build_hot_events
  rw [if_neg hti, hlat]
  dsimp only
  rw [if_neg hne]

theorem emitEvent_title (g : EventGroup) : (emitEvent g).title = g.title := rfl

theorem emitEvent_platforms (g : EventGroup) : (emitEvent g).platforms = g.platforms := rfl

theorem emitEvent_count (g : EventGroup) :
    (emitEvent g).platform_count = g.platform_count := rfl

theorem emitEvent_best (g : EventGroup) :
    (emitEvent g).best_rank = if g.best_rank ≠ 9999 then g.best_rank else 0 := rfl

theorem emitEvent_ranks (g : EventGroup) :
    (emitEvent g).ranks = if g.best_rank ≠ 9999 then [g.best_rank] else [] := rfl

set_option maxHeartbeats 1600000 in
/-- Claim C5 (amended): when a title appears with identical non-empty
normalized text on two distinct platforms in the latest batch and no other
sighting shares its key, the aggregation always forms exactly one group
for that key, with platform count two and each platform name exactly once;
the returned output contains exactly one HotEvent with that key provided
the two platform group passes the platform filter (min_platforms at most
two) and the truncation limit admits every group. As stated the claim
fails, because the min_platforms filter or the max_items truncation can
drop that event, see hot_event_collapse_cex. -/
theorem hot_event_collapse (title_info : TitleInfo)
    (id_to_name : List (String × String)) (max_items min_platforms : Int)
    (k latest : String) (s1 s2 : Sighting)
    (hlat : hotLatest title_info = some latest)
    (hs : sightingsFor title_info id_to_name latest k = [s1, s2])
    (hn : s1.pname ≠ s2.pname)
    (hmp : min_platforms ≤ 2)
    (hmx : (hotEventsRaw title_info id_to_name latest).length
      ≤ (max max_items 0).toNat) :
    (build_hot_events title_info id_to_name max_items min_platforms).countP
        (fun e => _normalize_title e.title == k) = 1 ∧
    ∀ e ∈ build_hot_events title_info id_to_name max_items min_platforms,
      _normalize_title e.title = k →
      e.platform_count = 2 ∧ e.platforms = [s1.pname, s2.pname] ∧
      e.platforms.count s1.pname = 1 ∧ e.platforms.count s2.pname = 1 := by
  have hnm : ¬ s2.pname ∈ (seedGroup s1).platforms := by
    rw [seedGroup_platforms]
    intro hmem
    exact hn (List.mem_singleton.mp hmem).symm
  have hlk : List.lookup k (hotGroups title_info id_to_name latest)
      = some (mergeSight s2 (seedGroup s1)) := by
    unfold hotGroups
    rw [lookup_foldl_hotStep]
    show mergeFold none (sightingsFor title_info id_to_name latest k) = _
    rw [hs]
    rfl
  have hg0count : (mergeSight s2 (seedGroup s1)).platform_count = 2 := by
    rw [mergeSight_count, if_neg hnm, seedGroup_count]
  have hg0plats : (mergeSight s2 (seedGroup s1)).platforms = [s1.pname, s2.pname] := by
    rw [mergeSight_platforms, if_neg hnm, seedGroup_platforms]
    rfl
  have hmemg : (k, mergeSight s2 (seedGroup s1)) ∈ hotGroups title_info id_to_name latest :=
    mem_of_lookup_eq_some k _ _ hlk
  have hkeyinv := hotGroups_key_inv title_info id_to_name latest
  have hnd := hotGroups_keys_nodup title_info id_to_name latest
  have hg0title : _normalize_title (mergeSight s2 (seedGroup s1)).title = k :=
    hkeyinv _ hmemg
  have hevents1 : (hotEventsRaw title_info id_to_name latest).countP
      (fun g => _normalize_title g.title == k) = 1 := by
    unfold hotEventsRaw
    rw [countP_events_eq_keys k _ hkeyinv]
    exact countP_keys_eq_one k _ hnd (List.mem_map_of_mem (fun kg => kg.1) hmemg)
  have hg0mem : mergeSight s2 (seedGroup s1) ∈ hotEventsRaw title_info id_to_name latest :=
    List.mem_map_of_mem (fun kg => kg.2) hmemg
  have hpred : decide (max min_platforms 1
      ≤ ((mergeSight s2 (seedGroup s1)).platform_count : Int)) = true := by
    rw [hg0count]
    exact decide_eq_true (by omega)
  have hgfilt : mergeSight s2 (seedGroup s1)
      ∈ hotFiltered (hotEventsRaw title_info id_to_name latest) min_platforms := by
    unfold hotFiltered
    exact List.mem_filter.mpr ⟨hg0mem, hpred⟩
  have hfne : hotFiltered (hotEventsRaw title_info id_to_name latest) min_platforms ≠ [] := by
    intro hc
    rw [hc] at hgfilt
    exact absurd hgfilt (List.not_mem_nil _)
  have hsel : hotSelected (hotEventsRaw title_info id_to_name latest) min_platforms
      = hotFiltered (hotEventsRaw title_info id_to_name latest) min_platforms := by
    unfold hotSelected
    rw [if_neg (fun hc => hfne hc.1)]
  have hselc : (hotSelected (hotEventsRaw title_info id_to_name latest)
      min_platforms).countP (fun g => _normalize_title g.title == k) = 1 := by
    rw [hsel]
    apply Nat.le_antisymm
    · calc (hotFiltered (hotEventsRaw title_info id_to_name latest)
            min_platforms).countP (fun g => _normalize_title g.title == k)
          ≤ (hotEventsRaw title_info id_to_name latest).countP
            (fun g => _normalize_title g.title == k) :=
            (List.filter_sublist _).countP_le _
        _ = 1 := hevents1
    · have hpos : 0 < (hotFiltered (hotEventsRaw title_info id_to_name latest)
          min_platforms).countP (fun g => _normalize_title g.title == k) :=
        List.countP_pos_iff.mpr ⟨_, hgfilt, beq_iff_eq.mpr hg0title⟩
      omega
  have htine : title_info ≠ [] := by
    intro hc
    subst hc
    rw [show sightingsFor [] id_to_name latest k = [] from rfl] at hs
    exact List.noConfusion hs
  have hene : hotEventsRaw title_info id_to_name latest ≠ [] := by
    intro hc
    rw [hc] at hg0mem
    exact absurd hg0mem (List.not_mem_nil _)
  rw [build_hot_events_unfold title_info id_to_name max_items min_platforms latest
    htine hlat hene]
  have hlen : (List.insertionSort eventLe
      (hotSelected (hotEventsRaw title_info id_to_name latest) min_platforms)).length
      ≤ (max max_items 0).toNat := by
    rw [List.length_insertionSort]
    calc (hotSelected (hotEventsRaw title_info id_to_name latest) min_platforms).length
        ≤ (hotEventsRaw title_info id_to_name latest).length := by
          rw [hsel]
          exact List.length_filter_le _ _
      _ ≤ (max max_items 0).toNat := hmx
  rw [List.take_of_length_le hlen]
  have hsortc : (List.insertionSort eventLe
      (hotSelected (hotEventsRaw title_info id_to_name latest) min_platforms)).countP
      (fun g => _normalize_title g.title == k) = 1 := by
    rw [(List.perm_insertionSort eventLe _).countP_eq]
    exact hselc
  constructor
  · rw [List.countP_map]
    exact hsortc
  · intro e hem htitle
    obtain ⟨g2, hg2mem, hg2e⟩ := List.mem_map.mp hem
    have hg2sel : g2 ∈ hotSelected (hotEventsRaw title_info id_to_name latest)
        min_platforms :=
      (List.perm_insertionSort eventLe _).mem_iff.mp hg2mem
    have hg2ev : g2 ∈ hotEventsRaw title_info id_to_name latest := by
      rw [hsel] at hg2sel
      exact (List.filter_sublist _).subset hg2sel
    obtain ⟨kg, hkgmem, hkg2⟩ := List.mem_map.mp hg2ev
    have ht2 : _normalize_title g2.title = k := by
      subst hg2e
      exact htitle
    have hk1 : kg.1 = k := by
      rw [← hkeyinv kg hkgmem, hkg2]
      exact ht2
    have hkg_eq : kg = (k, g2) := by
      obtain ⟨ka, ga⟩ := kg
      simp only [Prod.mk.injEq]
      exact ⟨hk1, hkg2⟩
    rw [hkg_eq] at hkgmem
    have hlk2 : List.lookup k (hotGroups title_info id_to_name latest) = some g2 :=
      lookup_eq_some_of_mem_nodup k g2 _ hnd hkgmem
    have hgeq : g2 = mergeSight s2 (seedGroup s1) := by
      rw [hlk2] at hlk
      exact (Option.some.injEq _ _).mp hlk
    subst hg2e
    subst hgeq
    refine ⟨?_, ?_, ?_, ?_⟩
    · rw [emitEvent_count, hg0count]
    · rw [emitEvent_platforms, hg0plats]
    · rw [emitEvent_platforms, hg0plats]
      simp [List.count_cons, hn, Ne.symm hn]
    · rw [emitEvent_platforms, hg0plats]
      simp [List.count_cons, hn, Ne.symm hn]

theorem mem_build_hot_events (title_info : TitleInfo)
    (id_to_name : List (String × String)) (max_items min_platforms : Int)
    (e : HotEvent)
    (hem : e ∈ build_hot_events title_info id_to_name max_items min_platforms) :
    ∃ latest g, hotLatest title_info = some latest ∧
      g ∈ hotEventsRaw title_info id_to_name latest ∧ e = emitEvent g := by
  unfold build_hot_events at hem
  by_cases hti : title_info = []
  · rw [if_pos hti] at hem
    exact absurd hem (List.not_mem_nil e)
  · rw [if_neg hti] at hem
    cases hlat : hotLatest title_info with
    | none =>
      rw [hlat] at hem
      exact absurd hem (List.not_mem_nil e)
    | some latest =>
      rw [hlat] at hem
      dsimp only at hem
      by_cases hE : hotEventsRaw title_info id_to_name latest = []
      · rw [if_pos hE] at hem
        exact absurd hem (List.not_mem_nil e)
      · rw [if_neg hE] at hem
        obtain ⟨g, hgmem, hge⟩ := List.mem_map.mp hem
        refine ⟨latest, g, rfl, ?_, hge.symm⟩
        have h1 : g ∈ List.insertionSort eventLe
            (hotSelected (hotEventsRaw title_info id_to_name latest) min_platforms) :=
          (List.take_sublist _ _).subset hgmem
        have h2 := (List.perm_insertionSort eventLe _).mem_iff.mp h1
        unfold hotSelected at h2
        by_cases hc : hotFiltered (hotEventsRaw title_info id_to_name latest)
            min_platforms = [] ∧ 1 < min_platforms
        · rw [if_pos hc] at h2
          exact h2
        · rw [if_neg hc] at h2
          exact (List.filter_sublist _).subset h2

/-- Witness for the amended claim C5 at a two platform snapshot whose two
titles normalize to the same key. -/
theorem hot_event_collapse_witness :
    (build_hot_events c5info [] 15 2).countP
        (fun e => _normalize_title e.title == c5key) = 1 ∧
    ∀ e ∈ build_hot_events c5info [] 15 2, _normalize_title e.title = c5key →
      e.platform_count = 2 ∧ e.platforms = [c5s1.pname, c5s2.pname] ∧
      e.platforms.count c5s1.pname = 1 ∧ e.platforms.count c5s2.pname = 1 :=
  hot_event_collapse c5info [] 15 2 c5key "t" c5s1 c5s2 (by decide) (by decide)
    (by decide) (by decide) (by decide)

/-- Counterexample to claim C5 as stated: the kk title appears with
identical normalized text on two platforms of the latest batch, yet with
min_platforms three its group is filtered out while the three platform
group survives, so no emitted HotEvent carries its key. -/
theorem hot_event_collapse_cex :
    sightingsFor c5cexInfo [] "t" c5cexKey
        = [⟨"p1", "kk", some 5, "", ""⟩, ⟨"p2", "kk", some 6, "", ""⟩] ∧
    (build_hot_events c5cexInfo [] 15 3).countP
        (fun e => _normalize_title e.title == c5cexKey) = 0 := by
  refine ⟨by decide, by decide⟩

/-- Claim C6 (amended): groups are filtered to platform count at least
max(min_platforms, 1); when that empties the set and min_platforms exceeds
one, the unfiltered groups are used instead; consequently the output is
non-empty whenever at least one group was formed and max_items is
positive. As stated the claim fails for non-positive max_items, see
fallback_nonempty_cex. -/
theorem fallback_nonempty (title_info : TitleInfo)
    (id_to_name : List (String × String)) (max_items min_platforms : Int)
    (latest : String)
    (hlat : hotLatest title_info = some latest)
    (hg : hotGroups title_info id_to_name latest ≠ [])
    (hmi : 0 < max_items) :
    (hotFiltered (hotEventsRaw title_info id_to_name latest) min_platforms = [] →
      1 < min_platforms →
      hotSelected (hotEventsRaw title_info id_to_name latest) min_platforms
        = hotEventsRaw title_info id_to_name latest) ∧
    build_hot_events title_info id_to_name max_items min_platforms ≠ [] := by
  constructor
  · intro hfe hmp
    unfold hotSelected
    rw [if_pos ⟨hfe, hmp⟩]
  · have hene : hotEventsRaw title_info id_to_name latest ≠ [] := by
      unfold hotEventsRaw
      intro hc
      exact hg (List.map_eq_nil_iff.mp hc)
    have htine : title_info ≠ [] := by
      intro hc
      subst hc
      rw [show hotLatest [] = none from rfl] at hlat
      exact Option.noConfusion hlat
    rw [build_hot_events_unfold title_info id_to_name max_items min_platforms latest
      htine hlat hene]
    have hselne : hotSelected (hotEventsRaw title_info id_to_name latest)
        min_platforms ≠ [] := by
      unfold hotSelected
      by_cases hc : hotFiltered (hotEventsRaw title_info id_to_name latest)
          min_platforms = [] ∧ 1 < min_platforms
      · rw [if_pos hc]
        exact hene
      · rw [if_neg hc]
        intro hfe
        apply hc
        refine ⟨hfe, ?_⟩
        by_contra hmp
        push_neg at hmp
        obtain ⟨g1, hg1⟩ : ∃ g1, g1 ∈ hotEventsRaw title_info id_to_name latest := by
          cases hEE : hotEventsRaw title_info id_to_name latest with
          | nil => exact absurd hEE hene
          | cons a l => exact ⟨a, List.mem_cons_self a l⟩
        obtain ⟨kg, hkg, hkg2⟩ := List.mem_map.mp hg1
        have hcnt := hotGroups_count_pos title_info id_to_name latest kg hkg
        have hmemf : g1 ∈ hotFiltered (hotEventsRaw title_info id_to_name latest)
            min_platforms := by
          unfold hotFiltered
          refine List.mem_filter.mpr ⟨hg1, ?_⟩
          apply decide_eq_true
          rw [← hkg2]
          omega
        rw [hfe] at hmemf
        exact absurd hmemf (List.not_mem_nil g1)
    intro hc
    rw [List.map_eq_nil_iff] at hc
    have hlne : (List.insertionSort eventLe
        (hotSelected (hotEventsRaw title_info id_to_name latest) min_platforms)).length
        ≠ 0 := by
      rw [List.length_insertionSort]
      intro h0
      exact hselne (List.length_eq_zero.mp h0)
    have hlentake := congrArg List.length hc
    rw [List.length_take] at hlentake
    simp only [List.length_nil] at hlentake
    omega

/-- Counterexample to claim C6 as stated: the snapshot forms one group and
the fallback applies, yet a non-positive max_items truncates the output to
the empty list. -/
theorem fallback_nonempty_cex :
    hotGroups c6info [] "t" ≠ [] ∧ build_hot_events c6info [] 0 2 = [] := by
  refine ⟨by decide, by decide⟩

/-- Witness for the amended claim C6 at the one group snapshot with a
min_platforms of three, exercising the fallback. -/
theorem fallback_nonempty_witness :
    (hotFiltered (hotEventsRaw c6info [] "t") 3 = [] → 1 < (3 : Int) →
      hotSelected (hotEventsRaw c6info [] "t") 3 = hotEventsRaw c6info [] "t") ∧
    build_hot_events c6info [] 15 3 ≠ [] :=
  fallback_nonempty c6info [] 15 3 "t" (by decide) (by decide) (by decide)

/-- Claim C7 (amended): provided every parsed legacy rank of the snapshot
is a real rank, at least one and strictly below the sentinel, every
emitted HotEvent has a ranks list of length at most one, best rank zero
exactly when the ranks list is empty (the remapped sentinel), and a
singleton ranks list [r] reproduces the unchanged best rank r with
1 ≤ r < 9999. Without that proviso the claim fails, see
sentinel_remap_cex. -/
theorem sentinel_remap (title_info : TitleInfo) (id_to_name : List (String × String))
    (max_items min_platforms : Int) (hsane : saneRanks title_info = true) :
    ∀ e ∈ build_hot_events title_info id_to_name max_items min_platforms,
      e.ranks.length ≤ 1 ∧ (e.best_rank = 0 ↔ e.ranks = []) ∧
      ∀ r, e.ranks = [r] → e.best_rank = r ∧ 1 ≤ r ∧ r < 9999 := by
  intro e hem
  obtain ⟨latest, g, hlat, hgev, hge⟩ :=
    mem_build_hot_events title_info id_to_name max_items min_platforms e hem
  obtain ⟨kg, hkg, hkg2⟩ := List.mem_map.mp hgev
  have hsaneg := hotGroups_best_sane title_info id_to_name latest hsane kg hkg
  rw [hkg2] at hsaneg
  subst hge
  rcases hsaneg with ⟨h1, h2⟩ | h9
  · have hne : g.best_rank ≠ 9999 := by omega
    refine ⟨?_, ?_, ?_⟩
    · rw [emitEvent_ranks, if_pos hne]
      simp
    · rw [emitEvent_best, emitEvent_ranks, if_pos hne, if_pos hne]
      constructor
      · intro h0
        omega
      · intro hl
        exact absurd hl (by simp)
    · intro r hr
      rw [emitEvent_ranks, if_pos hne] at hr
      injection hr with hr1 _
      rw [emitEvent_best, if_pos hne, hr1]
      exact ⟨rfl, by omega, by omega⟩
  · have hne : ¬ g.best_rank ≠ 9999 := by omega
    refine ⟨?_, ?_, ?_⟩
    · rw [emitEvent_ranks, if_neg hne]
      simp
    · rw [emitEvent_best, emitEvent_ranks, if_neg hne, if_neg hne]
      simp
    · intro r hr
      rw [emitEvent_ranks, if_neg hne] at hr
      exact absurd hr (by simp)

/-- Counterexample to claim C7 as stated: a parseable legacy rank of zero
is a known rank, yet the emitted event has best rank zero together with
the non-empty ranks list [0], breaking the claimed equivalence of best
rank zero and empty ranks. -/
theorem sentinel_remap_cex :
    (build_hot_events c7info [] 15 2).map (fun e => (e.best_rank, e.ranks))
      = [(0, [0])] := by
  decide

/-- Witness for the amended claim C7 at a sane one rank snapshot. -/
theorem sentinel_remap_witness :
    saneRanks c6info = true ∧
    ∀ e ∈ build_hot_events c6info [] 15 2,
      e.ranks.length ≤ 1 ∧ (e.best_rank = 0 ↔ e.ranks = []) ∧
      ∀ r, e.ranks = [r] → e.best_rank = r ∧ 1 ≤ r ∧ r < 9999 :=
  ⟨by decide, sentinel_remap c6info [] 15 2 (by decide)⟩

theorem flatEntries_erase : ∀ title_info : TitleInfo,
    flatEntries (eraseTimelines title_info)
      = (flatEntries title_info).map (fun e => (e.1, e.2.1, e.2.2.map eraseMeta))
  | [] => rfl
  | pt :: rest => by
    show ((pt.2.map fun ts => ts.map fun tm => (tm.1, tm.2.map eraseMeta)).getD []).map
        (fun tm => (pt.1, tm.1, tm.2)) ++ flatEntries (eraseTimelines rest)
      = ((pt.2.getD []).map (fun tm => (pt.1, tm.1, tm.2)) ++ flatEntries rest).map
          (fun e => (e.1, e.2.1, e.2.2.map eraseMeta))
    rw [List.map_append, flatEntries_erase rest]
    congr 1
    cases pt.2 with
    | none => rfl
    | some ts =>
      show (ts.map fun tm => (tm.1, tm.2.map eraseMeta)).map (fun tm => (pt.1, tm.1, tm.2))
          = (ts.map fun tm => (pt.1, tm.1, tm.2)).map
            (fun e => (e.1, e.2.1, e.2.2.map eraseMeta))
      rw [List.map_map, List.map_map]
      rfl

theorem foldl_congr_fun {α β : Type} (f g : α → β → α) (init : α) (l : List β)
    (h : ∀ acc x, f acc x = g acc x) : l.foldl f init = l.foldl g init := by
  induction l generalizing init with
  | nil => rfl
  | cons a rest ih =>
    rw [List.foldl_cons, List.foldl_cons, h init a]
    exact ih (g init a)

theorem hotLatest_erase (title_info : TitleInfo) :
    hotLatest (eraseTimelines title_info) = hotLatest title_info := by
  unfold hotLatest
  rw [flatEntries_erase, List.foldl_map]
  apply foldl_congr_fun
  intro acc e
  obtain ⟨pid, title, m?⟩ := e
  cases m? with
  | none => rfl
  | some m => rfl

theorem hotStep_erase (id_to_name : List (String × String)) (latest : String)
    (gs : List (String × EventGroup)) (e : String × String × Option TitleMeta) :
    hotStep id_to_name latest gs (e.1, e.2.1, e.2.2.map eraseMeta)
      = hotStep id_to_name latest gs e := by
  obtain ⟨pid, title, m?⟩ := e
  cases m? with
  | none => rfl
  | some m => rfl

theorem build_hot_events_erase (title_info : TitleInfo)
    (id_to_name : List (String × String)) (max_items min_platforms : Int) :
    build_hot_events (eraseTimelines title_info) id_to_name max_items min_platforms
      = build_hot_events title_info id_to_name max_items min_platforms := by
  have hG : ∀ latest, hotGroups (eraseTimelines title_info) id_to_name latest
      = hotGroups title_info id_to_name latest := by
    intro latest
    unfold hotGroups
    rw [flatEntries_erase, List.foldl_map]
    apply foldl_congr_fun
    intro gs e
    exact hotStep_erase id_to_name latest gs e
  unfold build_hot_events
  rw [hotLatest_erase]
  by_cases hti : title_info = []
  · subst hti
    rfl
  · have herase : eraseTimelines title_info ≠ [] :=
      fun hc => hti (List.map_eq_nil_iff.mp hc)
    rw [if_neg herase, if_neg hti]
    cases hlat : hotLatest title_info with
    | none => rfl
    | some latest =>
      dsimp only
      have hE : hotEventsRaw (eraseTimelines title_info) id_to_name latest
          = hotEventsRaw title_info id_to_name latest := by
        unfold hotEventsRaw
        rw [hG latest]
      rw [hE]

/-- Claim C10: the events aggregator determines ranks solely from the
legacy ranks field. Its output is invariant under erasing every
rank_timeline of the snapshot; when no meta has a usable legacy ranks
value, every emitted event carries the remapped sentinel, best rank zero
with empty ranks, timelines notwithstanding; and the focus extractor
instead prefers a non-empty parsed timeline over the legacy ranks. -/
theorem hot_events_ignore_timeline :
    (∀ (title_info : TitleInfo) (id_to_name : List (String × String))
        (max_items min_platforms : Int),
      build_hot_events (eraseTimelines title_info) id_to_name max_items min_platforms
        = build_hot_events title_info id_to_name max_items min_platforms) ∧
    (∀ (title_info : TitleInfo) (id_to_name : List (String × String))
        (max_items min_platforms : Int),
      ranksAllEmpty title_info = true →
      ∀ e ∈ build_hot_events title_info id_to_name max_items min_platforms,
        e.best_rank = 0 ∧ e.ranks = []) ∧
    (∀ m : TitleMeta, parsedTimeline m ≠ [] → _extract_rank_points m = parsedTimeline m) := by
  refine ⟨?_, ?_, ?_⟩
  · intro title_info id_to_name max_items min_platforms
    exact build_hot_events_erase title_info id_to_name max_items min_platforms
  · intro title_info id_to_name max_items min_platforms hempty e hem
    obtain ⟨latest, g, hlat, hgev, hge⟩ :=
      mem_build_hot_events title_info id_to_name max_items min_platforms e hem
    obtain ⟨kg, hkg, hkg2⟩ := List.mem_map.mp hgev
    have h9 := hotGroups_best_sentinel title_info id_to_name latest hempty kg hkg
    rw [hkg2] at h9
    subst hge
    constructor
    · rw [emitEvent_best, if_neg (by omega)]
    · rw [emitEvent_ranks, if_neg (by omega)]
  · intro m hne
    unfold _extract_rank_points
    rw [if_neg hne]

/-- Witness for claim C10 at a snapshot whose only meta has a parseable
timeline and no legacy ranks. -/
theorem hot_events_ignore_timeline_witness :
    ranksAllEmpty c10info = true ∧
    (∀ e ∈ build_hot_events c10info [] 15 2, e.best_rank = 0 ∧ e.ranks = []) ∧
    parsedTimeline c10meta ≠ [] ∧
    _extract_rank_points c10meta = parsedTimeline c10meta :=
  ⟨by decide, hot_events_ignore_timeline.2.1 c10info [] 15 2 (by decide),
   by decide, hot_events_ignore_timeline.2.2 c10meta (by decide)⟩

end TrendRadar
